import Mathlib

/-!
# Revio backend: feature controller

A shallow embedding of `src/controllers/featureController.js` and the
properties of its identifier allocator, content gate, fence stripping and
result persistence.

Conventions.  JavaScript strings are Lean strings (sequences of code points).
A JavaScript number that holds a counter is the natural number it stands for;
`roundToDouble` and `jsNumberToString` give the sum and the decimal form the
engine computes for it, which are exact up to 2^53 only.  `undefined` is
`none`.  External collaborators (the completion
service, `JSON.parse`, `JSON.stringify`, the text cleaner, the clock and the
failure of a store operation) are fields of `Env`.
-/

namespace Revio

/-! ## The counter document and the identifier allocator -/

/-- The fields of the document `users/<uid>/meta/counters`, by field name. -/
abbrev CounterDoc := List (String × Nat)

/-- The object literal written by `transaction.set` when the document is absent. -/
def initialCounters : CounterDoc :=
  [("acronymCounter", 0), ("termCounter", 0), ("summarizationCounter", 0), ("aiCounter", 0)]

/-- Firestore `update` of one field of a document: the field is replaced where it
exists and added otherwise; the other fields are kept. -/
def setField : CounterDoc → String → Nat → CounterDoc
  | [], k, v => [(k, v)]
  | (k', v') :: rest, k, v =>
    if k' = k then (k, v) :: rest else (k', v') :: setField rest k v

/-- The lookup table `{ AcronymMnemonics: 'acronymCounter', ... }[folderId]`. -/
def counterFieldOf (folderId : String) : Option String :=
  if folderId = "AcronymMnemonics" then some "acronymCounter"
  else if folderId = "TermsAndDefinitions" then some "termCounter"
  else if folderId = "SummarizedReviewers" then some "summarizationCounter"
  else if folderId = "SummarizedAIReviewers" then some "aiCounter"
  else none

/-- The property key a computed member access uses: `undefined` becomes the
key `"undefined"`. -/
def propertyKey (counterField : Option String) : String :=
  counterField.getD "undefined"

/-- The transaction of lines 9-19: create the document with four zero counters
when it does not exist. -/
def ensureCounters : Option CounterDoc → Option CounterDoc
  | none => some initialCounters
  | some d => some d

/-- The value `counterSnapshot.data()?.[counterField] || 0`. -/
def readCurrent (doc : Option CounterDoc) (key : String) : Nat :=
  match doc with
  | none => 0
  | some d => (d.lookup key).getD 0

/-- The call `counterRef.update({ [counterField]: next })`; an absent document is
not created by `update`. -/
def updateCounter (doc : Option CounterDoc) (key : String) (next : Nat) : Option CounterDoc :=
  doc.map fun d => setField d key next

/-- The power 2^53: every integer up to it is a JavaScript number. -/
def maxExactInteger : Nat := 9007199254740992

/-- The number of binary digits of `m` beyond 53, so that `m / 2 ^ e` has 53
binary digits for `e = excessBits m m`.  `fuel` bounds the search. -/
def excessBits : Nat → Nat → Nat
  | 0, _ => 0
  | fuel + 1, m => if m < maxExactInteger then 0 else 1 + excessBits fuel (m / 2)

/-- The JavaScript number nearest to the non-negative integer `m`, a tie going
to the even significand: the value of a sum of numbers whose exact value is
`m`. -/
def roundToDouble (m : Nat) : Nat :=
  if m ≤ maxExactInteger then m
  else
    let e := excessBits m m
    let q := m / 2 ^ e
    let r := m % 2 ^ e
    let half := 2 ^ e / 2
    if r < half then q * 2 ^ e
    else if half < r then (q + 1) * 2 ^ e
    else if q % 2 = 0 then q * 2 ^ e
    else (q + 1) * 2 ^ e

/-- The decimal with `k` significant digits that is read back as the number
`v`, if there is one: the nearer of the two such decimals around `v`, the even
one on a tie. -/
def decimalWith (v k : Nat) : Option Nat :=
  let d := (Nat.toDigits 10 v).length
  if d ≤ k then some v
  else
    let unit := 10 ^ (d - k)
    let lo := v / unit * unit
    let hi := lo + unit
    let okLo := roundToDouble lo = v
    let okHi := roundToDouble hi = v
    if okLo ∧ okHi then
      if v - lo < hi - v then some lo
      else if hi - v < v - lo then some hi
      else if (v / unit) % 2 = 0 then some lo else some hi
    else if okLo then some lo
    else if okHi then some hi
    else none

/-- The decimal with the fewest significant digits, from `k` digits on, that is
read back as the number `v`. -/
def shortestDecimal (v : Nat) : Nat → Nat → Nat
  | 0, _ => v
  | fuel + 1, k =>
    match decimalWith v k with
    | some y => y
    | none => shortestDecimal v fuel (k + 1)

/-- The digits without the zeros at their end. -/
def dropTrailingZeros (digits : List Char) : List Char :=
  (digits.reverse.dropWhile fun c => c = '0').reverse

/-- The string a template literal makes of a number that holds the
non-negative integer `v`: the digits of `v` up to 2^53; beyond, the shortest
decimal that is read back as `v`, written out when it has at most 21 digits and
in exponent form otherwise. -/
def jsNumberToString (v : Nat) : String :=
  if v ≤ maxExactInteger then toString v
  else
    let digits := Nat.toDigits 10 (shortestDecimal v 17 1)
    let n := digits.length
    if n ≤ 21 then String.mk digits
    else
      match dropTrailingZeros digits with
      | [] => String.mk digits
      | [s] => String.mk [s] ++ "e+" ++ toString (n - 1)
      | s :: rest => String.mk (s :: '.' :: rest) ++ "e+" ++ toString (n - 1)

/-- The function `updateCounterAndGetId(uid, folderId, prefix)` on the counter
document of user `uid`: the document after the call and the returned identifier.
`current + 1` is a sum of JavaScript numbers.  The three store operations on the
counter document are taken to succeed. -/
def updateCounterAndGetId (doc : Option CounterDoc) (folderId pfx : String) :
    Option CounterDoc × String :=
  let doc1 := ensureCounters doc
  let counterField := propertyKey (counterFieldOf folderId)
  let current := readCurrent doc1 counterField
  let next := roundToDouble (current + 1)
  (updateCounter doc1 counterField next, pfx ++ jsNumberToString next)

/-- The four feature types served by `processFeature`. -/
inductive Feature where
  | acronym
  | terms
  | summarize
  | explain
  deriving DecidableEq, Repr

/-- The `folderId` chosen by the switch of `processFeature`. -/
def Feature.folderId : Feature → String
  | .acronym => "AcronymMnemonics"
  | .terms => "TermsAndDefinitions"
  | .summarize => "SummarizedReviewers"
  | .explain => "SummarizedAIReviewers"

/-- The identifier prefix chosen by the switch of `processFeature`. -/
def Feature.pfx : Feature → String
  | .acronym => "ac"
  | .terms => "td"
  | .summarize => "std"
  | .explain => "ai"

/-- The feature name as the source spells it. -/
def Feature.name : Feature → String
  | .acronym => "acronym"
  | .terms => "terms"
  | .summarize => "summarize"
  | .explain => "explain"

/-- The counter field of a feature category. -/
def Feature.counterField (c : Feature) : String :=
  propertyKey (counterFieldOf c.folderId)

/-- The counter a user holds for a field; an absent record or field counts as 0. -/
def counterValue (doc : Option CounterDoc) (field : String) : Nat :=
  readCurrent doc field

/-! ### Interleaved allocations

Each `await` of `updateCounterAndGetId` is a point where another request may
run.  A call is therefore three atomic steps: the initialising transaction, the
read of the snapshot, and the update followed by the return. -/

/-- Where a call of `updateCounterAndGetId` stands. -/
inductive AllocPc where
  | start
  | initialised
  | hasRead (current : Nat)
  | returned (id : String)
  deriving DecidableEq, Repr

/-- One call in flight. -/
structure AllocCall where
  folderId : String
  pfx : String
  pc : AllocPc
  deriving DecidableEq, Repr

/-- One atomic step of a call against the shared counter document. -/
def AllocCall.step (doc : Option CounterDoc) (c : AllocCall) : Option CounterDoc × AllocCall :=
  match c.pc with
  | .start => (ensureCounters doc, { c with pc := .initialised })
  | .initialised =>
    (doc, { c with pc := .hasRead (readCurrent doc (propertyKey (counterFieldOf c.folderId))) })
  | .hasRead current =>
    let next := roundToDouble (current + 1)
    (updateCounter doc (propertyKey (counterFieldOf c.folderId)) next,
      { c with pc := .returned (c.pfx ++ jsNumberToString next) })
  | .returned _ => (doc, c)

/-- The shared document and the calls in flight. -/
structure AllocState where
  doc : Option CounterDoc
  calls : List AllocCall
  deriving DecidableEq, Repr

/-- Let call number `i` take its next step. -/
def AllocState.stepCall (s : AllocState) (i : Nat) : AllocState :=
  match s.calls.get? i with
  | none => s
  | some c =>
    let r := c.step s.doc
    { doc := r.1, calls := s.calls.set i r.2 }

/-- Run a schedule: the list of call numbers in the order they take steps. -/
def AllocState.run (s : AllocState) (schedule : List Nat) : AllocState :=
  schedule.foldl AllocState.stepCall s

/-- The identifiers returned so far, in call order. -/
def AllocState.returnedIds (s : AllocState) : List String :=
  s.calls.filterMap fun c =>
    match c.pc with
    | .returned id => some id
    | _ => none

/-! ## Text: whitespace, trimming and the fence patterns -/

/-- The characters matched by `\s` and removed by `String.prototype.trim`:
the ECMAScript white space and line terminator code points. -/
def isJsSpace (c : Char) : Bool :=
  let n := c.toNat
  (9 ≤ n && n ≤ 13) || n == 32 || n == 160 || n == 0x1680 || (0x2000 ≤ n && n ≤ 0x200A) ||
    n == 0x2028 || n == 0x2029 || n == 0x202F || n == 0x205F || n == 0x3000 || n == 0xFEFF

/-- The characters matched by `[a-zA-Z]`. -/
def isAsciiLetter (c : Char) : Bool :=
  let n := c.toNat
  (97 ≤ n && n ≤ 122) || (65 ≤ n && n ≤ 90)

/-- The method `trim` on the characters of a string. -/
def trimChars (cs : List Char) : List Char :=
  ((cs.dropWhile isJsSpace).reverse.dropWhile isJsSpace).reverse

/-- The method `String.prototype.trim`. -/
def jsTrim (s : String) : String := String.mk (trimChars s.data)

/-- The backtick. -/
def tick : Char := Char.ofNat 96

/-- Length of a match of the pattern of three backticks at the head of the input. -/
def fenceLen : List Char → Option Nat
  | a :: b :: c :: _ => if a = tick ∧ b = tick ∧ c = tick then some 3 else none
  | _ => none

/-- Length of the (greedy) match of three backticks, `json` in any letter case and
`\s*` at the head of the input: the pattern of `/```json\s*/i`. -/
def jsonFenceLen : List Char → Option Nat
  | a :: b :: c :: j :: s :: o :: n :: rest =>
    if a = tick ∧ b = tick ∧ c = tick ∧ (j = 'j' ∨ j = 'J') ∧ (s = 's' ∨ s = 'S') ∧
        (o = 'o' ∨ o = 'O') ∧ (n = 'n' ∨ n = 'N') then
      some (7 + (rest.takeWhile isJsSpace).length)
    else none
  | _ => none

/-- The call `.replace(pattern, '')` with a global pattern: every match, found
from left to right without overlap, is deleted.  `skip` counts the characters of
the current match still to be deleted. -/
def deleteAll (matchLen : List Char → Option Nat) : Nat → List Char → List Char
  | _, [] => []
  | skip + 1, _ :: cs => deleteAll matchLen skip cs
  | 0, c :: cs =>
    match matchLen (c :: cs) with
    | some (n + 1) => deleteAll matchLen n cs
    | _ => c :: deleteAll matchLen 0 cs

/-- The call `.replace(pattern, '')` with a pattern that is not global: the
leftmost match only is deleted. -/
def deleteFirst (matchLen : List Char → Option Nat) : List Char → List Char
  | [] => []
  | c :: cs =>
    match matchLen (c :: cs) with
    | some n => (c :: cs).drop n
    | none => c :: deleteFirst matchLen cs

/-- The call `.replace(/```$/, '')`: three backticks are deleted when they end
the input. -/
def deleteTrailingFence (cs : List Char) : List Char :=
  if [tick, tick, tick].isSuffixOf cs then cs.take (cs.length - 3) else cs

/-- The characters of `stripFenced(text)` for a non-empty text. -/
def stripFencedChars (cs : List Char) : List Char :=
  trimChars (deleteAll fenceLen 0 (deleteAll jsonFenceLen 0 cs))

/-- The helper `stripFenced(text)` of lines 41-46. -/
def stripFenced (text : String) : String :=
  if text = "" then "" else String.mk (stripFencedChars text.data)

/-- The cleaning each parsing stage applies before `JSON.parse`:
`raw.replace(/```json\s*/i, '').replace(/```$/, '').trim()`. -/
def cleanStageOutput (raw : String) : String :=
  String.mk (trimChars (deleteTrailingFence (deleteFirst jsonFenceLen raw.data)))

/-! ## The content gate -/

/-- The pieces of `text.split(/\s+/)`: the input is cut at every maximal run of
white space, and a run at either end leaves an empty piece there. -/
def jsSplitWs : List Char → List (List Char)
  | [] => [[]]
  | c :: cs =>
    if isJsSpace c then
      match cs with
      | [] => [[], []]
      | d :: _ => if isJsSpace d then jsSplitWs cs else [] :: jsSplitWs cs
    else
      match jsSplitWs cs with
      | [] => [[c]]
      | p :: ps => (c :: p) :: ps

/-- The result of `cleanedText.replace(/[^a-zA-Z]/g, '')`. -/
def keepLetters (cs : List Char) : List Char := cs.filter isAsciiLetter

/-- The three reasons the gate refuses a text. -/
inductive GateRejection where
  | noContent
  | tooFewWords
  | tooFewLetters
  deriving DecidableEq, Repr

/-- The checks of lines 198-213 on the extracted text `markdown`: `none` when
the text passes, otherwise the check that refused it. -/
def contentGate (markdown : String) : Option GateRejection :=
  if markdown = "" then some .noContent
  else
    let cleanedText := trimChars markdown.data
    let wordCount := (jsSplitWs cleanedText).length
    if wordCount < 20 then some .tooFewWords
    else
      let letters := keepLetters cleanedText
      if letters.length < 50 then some .tooFewLetters
      else none

/-- Number of words of a text: the maximal runs of characters that are not
white space.  `afterSpace` tells whether the previous character was white space
(or the text starts here). -/
def countWordsFrom (afterSpace : Bool) : List Char → Nat
  | [] => 0
  | c :: cs =>
    (if afterSpace && !isJsSpace c then 1 else 0) + countWordsFrom (isJsSpace c) cs

/-- The whitespace-delimited word count of a text, as the specification words it. -/
def specWordCount (text : String) : Nat := countWordsFrom true text.data

/-- The count of alphabetic characters of a text, as the specification words it:
the length of the text with every character outside `a-z`, `A-Z` removed. -/
def specLetterCount (text : String) : Nat := (text.data.filter isAsciiLetter).length

/-! ## Parsed values -/

/-- A value produced by `JSON.parse`.  The members of an object are its own
properties in order, each key once.  A number is kept as an integer: the code
only tests numbers for being zero and stores them unchanged. -/
inductive Json where
  | null
  | bool (b : Bool)
  | num (n : Int)
  | str (s : String)
  | arr (items : List Json)
  | obj (members : List (String × Json))

/-- An exception: a `TypeError` raised by the engine, the error the document
store throws when it refuses an argument (a document path or the data of a
write), or an error raised by a collaborator with its message. -/
inductive JsError where
  | typeError
  | invalidArgument
  | failure (message : String)
  deriving DecidableEq, Repr

/-- Whether a value counts as true in a condition. -/
def Json.truthy : Json → Bool
  | .null => false
  | .bool b => b
  | .num n => n != 0
  | .str s => s != ""
  | .arr _ => true
  | .obj _ => true

/-- Whether a possibly `undefined` value counts as true. -/
def truthy? : Option Json → Bool
  | none => false
  | some v => v.truthy

/-- The member access `v.key` for the keys the controller reads (`title`,
`acronymGroups`, `questions`, `id`, `term`, ...), none of which is a built-in
property: reading from `null` throws, an object yields its member, and every
other value yields `undefined`. -/
def Json.prop (v : Json) (key : String) : Except JsError (Option Json) :=
  match v with
  | .null => .error .typeError
  | .obj members => .ok (members.lookup key)
  | _ => .ok none

/-- The optional access `v?.key`: `undefined` on `null` instead of throwing. -/
def Json.optProp (v : Json) (key : String) : Option Json :=
  match v with
  | .obj members => members.lookup key
  | _ => none

/-- The values a `for ... of` loop visits: the items of an array, the
characters of a string; any other value is not iterable. -/
def Json.iterate : Json → Except JsError (List Json)
  | .arr items => .ok items
  | .str s => .ok (s.data.map fun c => Json.str (String.singleton c))
  | _ => .error .typeError

/-- The expression `v || []`. -/
def orEmptyList (v : Option Json) : Json :=
  match v with
  | some j => if j.truthy then j else .arr []
  | none => .arr []

/-- The expression `v || undefined`. -/
def orUndefined (v : Option Json) : Option Json :=
  match v with
  | some j => if j.truthy then some j else none
  | none => none

/-- The call `v.trim()` on a value known to be present: only a string has the
method. -/
def Json.trim : Json → Except JsError String
  | .str s => .ok (jsTrim s)
  | _ => .error .typeError

/-- The own enumerable properties an object spread `...v` copies. -/
def Json.spreadMembers : Json → List (String × Json)
  | .obj members => members
  | .arr items => items.enum.map fun p => (toString p.1, p.2)
  | .str s => s.data.enum.map fun p => (toString p.1, Json.str (String.singleton p.2))
  | _ => []

/-- Define property `k` of an object under construction: an existing property
keeps its place and takes the new value. -/
def assignMember : List (String × Json) → String × Json → List (String × Json)
  | [], kv => [kv]
  | (k', v') :: rest, kv =>
    if k' = kv.1 then (k', kv.2) :: rest else (k', v') :: assignMember rest kv

/-! ## The document store -/

/-- A document reference: the collection names and document keys from the
root.  A key is the string handed to `.doc(...)`; the store accepts no other
value, so a reference it hands out holds no `none`. -/
abbrev Ref := List (String × Option Json)

/-- One entry of a stored definition list: the object with `text` and `type`. -/
structure DefinitionEntry where
  text : String
  type : Option Json

/-- The documents the controller writes. -/
inductive Record where
  | artifact (id : String) (title : Json) (createdAt startDate : Nat)
  | embedded (id : String) (reviewers : List Json) (createdAt startDate : Nat)
  | content (id keyPhrase title : Option Json)
  | item (letter word : Option Json)
  | question (term : String) (definition : List DefinitionEntry)

/-- A write of a document at a reference. -/
structure Write where
  ref : Ref
  data : Record

/-- The reference `users/<uid>/folders/<folderId>/reviewers/<reviewerId>`. -/
def reviewerRefOf (uid folderId reviewerId : String) : Ref :=
  [("users", some (.str uid)), ("folders", some (.str folderId)),
    ("reviewers", some (.str reviewerId))]

/-- The pieces of a document path between its slashes. -/
def splitSlash : List Char → List (List Char)
  | [] => [[]]
  | c :: cs =>
    if c = '/' then [] :: splitSlash cs
    else
      match splitSlash cs with
      | [] => [[c]]
      | p :: ps => (c :: p) :: ps

/-- Whether a document path contains `//`. -/
def hasDoubleSlash : List Char → Bool
  | a :: b :: rest => (a == '/' && b == '/') || hasDoubleSlash (b :: rest)
  | _ => false

/-- The reference reached from `parent` through `collection` and the segments
of a document path: a document key, then in turn a sub-collection and a key. -/
def appendSegments (parent : Ref) (collection : String) : List String → Ref
  | [] => parent
  | [key] => parent ++ [(collection, some (.str key))]
  | key :: sub :: rest => appendSegments (parent ++ [(collection, some (.str key))]) sub rest

/-- The call `parent.collection(collection).doc(documentPath)` with an argument,
as the Firestore client validates it: the argument must be a non-empty string
without `//`, and its segments (the pieces between slashes, empty ends dropped)
must end at a document, which an odd number of them does.  Every other
argument, `undefined` included, makes `.doc` throw. -/
def docRef (parent : Ref) (collection : String) (documentPath : Option Json) :
    Except JsError Ref :=
  match documentPath with
  | some (.str path) =>
    if path = "" ∨ hasDoubleSlash path.data = true then .error .invalidArgument
    else
      let segments := ((splitSlash path.data).filter fun p => !p.isEmpty).map String.mk
      if segments.length % 2 = 1 then .ok (appendSegments parent collection segments)
      else .error .invalidArgument
  | _ => .error .invalidArgument

/-- Whether no field of a record is `undefined`. -/
def Record.fieldsDefined : Record → Bool
  | .content id keyPhrase title => id.isSome && keyPhrase.isSome && title.isSome
  | .item letter word => letter.isSome && word.isSome
  | _ => true

/-- The call `saveBatch.set(ref, data)`: the client validates the data when the
write is queued and throws on a field that is `undefined`, unless the store was
set up with `ignoreUndefinedProperties`, in which case the field is left out.
What else the store may refuse in the data is refused at the latest by
`commit`. -/
def batchSet (ignoreUndefined : Bool) (ref : Ref) (data : Record) : Except JsError Write :=
  if ignoreUndefined || data.fieldsDefined then .ok ⟨ref, data⟩ else .error .invalidArgument

/-! ## Building the batch -/

/-- The body of `group.contents.forEach((item, index) => ...)`: one leaf
document per item, keyed by `index.toString()`. -/
def acronymItemWrites (ignoreUndefined : Bool) (contentRef : Ref) :
    Nat → List Json → Except JsError (List Write)
  | _, [] => .ok []
  | index, item :: rest => do
    let itemRef := contentRef ++ [("contents", some (.str (toString index)))]
    let letter ← item.prop "letter"
    let word ← item.prop "word"
    let leaf ← batchSet ignoreUndefined itemRef (.item letter word)
    let more ← acronymItemWrites ignoreUndefined contentRef (index + 1) rest
    return leaf :: more

/-- One round of the loop over `parsed.acronymGroups`: the content document of
the group, then its items.  `forEach` exists on arrays only. -/
def acronymGroupWrites (ignoreUndefined : Bool) (reviewerRef : Ref) (group : Json) :
    Except JsError (List Write) := do
  let id ← group.prop "id"
  let contentRef ← docRef reviewerRef "content" id
  let keyPhrase ← group.prop "keyPhrase"
  let title ← group.prop "title"
  let content ← batchSet ignoreUndefined contentRef (.content id keyPhrase title)
  let contents ← group.prop "contents"
  match contents with
  | some (.arr items) => do
    let leaves ← acronymItemWrites ignoreUndefined contentRef 0 items
    return content :: leaves
  | _ => .error .typeError

/-- The loop over the groups, in order. -/
def acronymGroupsWrites (ignoreUndefined : Bool) (reviewerRef : Ref) :
    List Json → Except JsError (List Write)
  | [] => .ok []
  | group :: rest => do
    let ws ← acronymGroupWrites ignoreUndefined reviewerRef group
    let more ← acronymGroupsWrites ignoreUndefined reviewerRef rest
    return ws ++ more

/-- The batch of `case 'acronym'` (lines 666-675): the writes queued for
`parsed.acronymGroups || []`, or the exception that interrupts the loop. -/
def acronymBatch (ignoreUndefined : Bool) (reviewerRef : Ref) (parsed : Json) :
    Except JsError (List Write) := do
  let groups ← parsed.prop "acronymGroups"
  let list ← (orEmptyList groups).iterate
  acronymGroupsWrites ignoreUndefined reviewerRef list

/-- The filter `d => d?.text && d?.type`. -/
def keptDefinition (d : Json) : Bool :=
  truthy? (d.optProp "text") && truthy? (d.optProp "type")

/-- The map of a kept entry `d` to the object with `text: d.text.trim()` and
`type: d.type`. -/
def definitionEntry (d : Json) : Except JsError DefinitionEntry := do
  let text ← d.prop "text"
  let type ← d.prop "type"
  match text with
  | some t => do
    let trimmed ← t.trim
    return ⟨trimmed, type⟩
  | none => .error .typeError

/-- The map over the kept entries, in order. -/
def definitionEntries : List Json → Except JsError (List DefinitionEntry)
  | [] => .ok []
  | d :: rest => do
    let e ← definitionEntry d
    let more ← definitionEntries rest
    return e :: more

/-- One round of the loop over `parsed.questions` (lines 685-694): `none` when
the round ends in `continue`, otherwise the write queued for the question. -/
def questionWrite (reviewerRef : Ref) (q : Json) : Except JsError (Option Write) :=
  if !truthy? (q.optProp "term") then .ok none
  else
    match q.optProp "definition" with
    | some (.arr ds) => do
      let definitions ← definitionEntries (ds.filter keptDefinition)
      if definitions.length = 0 then return none
      else do
        let qRef ← docRef reviewerRef "questions" (orUndefined (q.optProp "id"))
        match q.optProp "term" with
        | some term => do
          let trimmed ← term.trim
          return some ⟨qRef, .question trimmed definitions⟩
        | none => .error .typeError
    | _ => .ok none

/-- The loop over the questions, in order. -/
def questionsWrites (reviewerRef : Ref) : List Json → Except JsError (List Write)
  | [] => .ok []
  | q :: rest => do
    let w ← questionWrite reviewerRef q
    let more ← questionsWrites reviewerRef rest
    return w.toList ++ more

/-- The batch of `case 'terms'` (lines 683-695): the writes queued for
`parsed.questions || []`, or the exception that interrupts the loop. -/
def termsBatch (reviewerRef : Ref) (parsed : Json) : Except JsError (List Write) := do
  let questions ← parsed.prop "questions"
  let list ← (orEmptyList questions).iterate
  questionsWrites reviewerRef list

/-- The expression `parsed.title || 'Untitled'`. -/
def artifactTitle (parsed : Json) : Except JsError Json := do
  let title ← parsed.prop "title"
  match title with
  | some t => return (if t.truthy then t else .str "Untitled")
  | none => return .str "Untitled"

/-! ## The request -/

/-- The calls of the completion service the controller can make. -/
inductive Stage where
  | acronymStep0
  | acronymStep1
  | termsStep1
  | termsStep2
  | single (featureType : Feature)
  deriving DecidableEq, Repr

/-- The collaborators of one request and what they do during it. -/
structure Env where
  /-- Whether `process.env.RETURN_MARKDOWN_ONLY === "true"`. -/
  returnMarkdownOnly : Bool
  /-- The text cleaner `postprocessMarkdown`, at the source type of the request. -/
  postprocessMarkdown : String → String
  /-- The completion `generateWithGPT` for a stage and its user prompt: an
  exception, or the output (`none` when it is `null` or `undefined`). -/
  generateWithGPT : Stage → String → Except JsError (Option String)
  /-- The function `JSON.parse`; `none` when it throws. -/
  jsonParse : String → Option Json
  /-- The function `JSON.stringify(value, null, 2)`. -/
  jsonStringify : Json → String
  /-- Whether the store was set up with `ignoreUndefinedProperties`, in
  `utils/firebaseAdmin.js`; the default is `false`. -/
  ignoreUndefinedProperties : Bool
  /-- The exception `reviewerRef.set` throws, if it fails. -/
  reviewerSetError : Option JsError
  /-- The exception `saveBatch.commit` throws, if it fails. -/
  commitError : Option JsError
  /-- The value of `new Date()` for `createdAt`. -/
  createdAt : Nat
  /-- The value of `new Date()` for `startDate`. -/
  startDate : Nat

/-- What the controller reads from the request. -/
structure Request where
  /-- The field `req.user.uid`, a document key: the non-empty id without
  slashes of the authenticated user. -/
  uid : String
  /-- The field `req.body.markdown`. -/
  bodyMarkdown : Option String
  /-- The text `simulateRes` extracts from `req.file`, when a file is attached. -/
  fileText : Option String

/-- The text of lines 195-196: `req.body.markdown || ''`, replaced by the text
extracted from the file when it is empty and a file is attached. -/
def Request.markdown (req : Request) : String :=
  let markdown := req.bodyMarkdown.getD ""
  if markdown = "" then
    match req.fileText with
    | some text => text
    | none => markdown
  else markdown

/-- The body of a JSON response. -/
inductive ResponseBody where
  /-- An object with the field `error`. -/
  | error (message : String)
  /-- The body of the outer `catch`: `error` is `err.message`, or the fallback
  text when the message is empty. -/
  | thrown (e : JsError) (fallback : String)
  /-- The diagnostic body with the field `processedMarkdown`. -/
  | processedMarkdown (markdown : String)
  /-- The success body with the field `reviewers`. -/
  | reviewers (artifacts : List Json)

/-- What the controller answers. -/
inductive Response where
  /-- The call `res.status(status).send(text)`. -/
  | send (status : Nat) (text : String)
  /-- The call `res.status(status).json(body)`; `res.json(body)` has status 200. -/
  | json (status : Nat) (body : ResponseBody)

/-- The HTTP status of a response. -/
def Response.status : Response → Nat
  | .send status _ => status
  | .json status _ => status

/-- The answer of the gate for each refusal (lines 199, 207 and 212). -/
def GateRejection.response : GateRejection → Response
  | .noContent => .send 400 "No content to process. Please try again."
  | .tooFewWords => .send 400 "The text content is too short or meaningless for this feature."
  | .tooFewLetters => .send 400 "The text content is too short or meaningless for this feature."

/-- The answer of the outer `catch` (line 714). -/
def caughtResponse (featureType : Feature) (e : JsError) : Response :=
  .json 400 (.thrown e ("Failed to process " ++ featureType.name))

/-- The user prompt of the stages that read the markdown. -/
def contentPrompt (markdown : String) : String :=
  "Content to process:\n---\n" ++ markdown ++ "\n---"

/-- The user prompt of the second stage of `terms`. -/
def extractedPrompt (env : Env) (step1Parsed : Json) : String :=
  "Here is the extracted data:\n---\n" ++ env.jsonStringify step1Parsed ++ "\n---"

/-- The `try` block of a parsing stage: clean the output and parse it.  `none`
when the block throws, which it also does when the output is missing. -/
def parseStage (env : Env) (output : Option String) : Option Json :=
  match output with
  | none => none
  | some raw => env.jsonParse (cleanStageOutput raw)

/-- How the generation part of a request ends. -/
inductive StageResult where
  /-- The last stage parsed: the value of `parsed`. -/
  | parsed (value : Json)
  /-- The controller answered and returned. -/
  | respond (r : Response)
  /-- An exception left for the outer `catch`. -/
  | thrown (e : JsError)

/-- The flow of `acronym` (lines 229-343): stage 0 cleans the markdown, stage 1
is parsed. -/
def runAcronym (env : Env) (markdown : String) : List (Stage × String) × StageResult :=
  let step0UserPrompt := contentPrompt markdown
  let calls0 := [(Stage.acronymStep0, step0UserPrompt)]
  match env.generateWithGPT .acronymStep0 step0UserPrompt with
  | .error e => (calls0, .thrown e)
  | .ok step0Output =>
    let cleaned := stripFenced (step0Output.getD "")
    let cleanedMarkdown := if cleaned = "" then env.postprocessMarkdown markdown else cleaned
    if env.returnMarkdownOnly then
      (calls0, .respond (.json 200 (.processedMarkdown cleanedMarkdown)))
    else
      let step1UserPrompt := contentPrompt cleanedMarkdown
      let calls1 := calls0 ++ [(Stage.acronymStep1, step1UserPrompt)]
      match env.generateWithGPT .acronymStep1 step1UserPrompt with
      | .error e => (calls1, .thrown e)
      | .ok step1Output =>
        match parseStage env step1Output with
        | none => (calls1, .respond (.json 500 (.error "Invalid GPT Step1 output for acronym")))
        | some step1Parsed => (calls1, .parsed step1Parsed)

/-- The flow of `terms` (lines 515-632): both stages are parsed, the second
reads the serialised result of the first. -/
def runTerms (env : Env) (markdown : String) : List (Stage × String) × StageResult :=
  let step1UserPrompt := contentPrompt markdown
  let calls1 := [(Stage.termsStep1, step1UserPrompt)]
  match env.generateWithGPT .termsStep1 step1UserPrompt with
  | .error e => (calls1, .thrown e)
  | .ok step1Output =>
    match parseStage env step1Output with
    | none => (calls1, .respond (.json 500 (.error "Invalid GPT Step1 output for terms")))
    | some step1Parsed =>
      let step2UserPrompt := extractedPrompt env step1Parsed
      let calls2 := calls1 ++ [(Stage.termsStep2, step2UserPrompt)]
      match env.generateWithGPT .termsStep2 step2UserPrompt with
      | .error e => (calls2, .thrown e)
      | .ok step2Output =>
        match parseStage env step2Output with
        | none => (calls2, .respond (.json 500 (.error "Invalid GPT Step2 output for terms")))
        | some parsed => (calls2, .parsed parsed)

/-- The flow of `summarize` and `explain` (lines 634-650): one parsed stage. -/
def runSingle (env : Env) (featureType : Feature) (markdown : String) :
    List (Stage × String) × StageResult :=
  let userPrompt := contentPrompt markdown
  let calls := [(Stage.single featureType, userPrompt)]
  match env.generateWithGPT (.single featureType) userPrompt with
  | .error e => (calls, .thrown e)
  | .ok gptOutput =>
    match parseStage env gptOutput with
    | none => (calls, .respond (.json 500 (.error ("Invalid GPT output for " ++ featureType.name))))
    | some parsed => (calls, .parsed parsed)

/-- The generation part of `processFeature`: the completion calls made, in
order, and how the part ends. -/
def runStages (env : Env) (featureType : Feature) (markdown : String) :
    List (Stage × String) × StageResult :=
  match featureType with
  | .acronym => runAcronym env markdown
  | .terms => runTerms env markdown
  | .summarize => runSingle env .summarize markdown
  | .explain => runSingle env .explain markdown

/-- What persistence leaves behind: the writes the store holds, in order, and
the exception that ended it, if any. -/
structure Persisted where
  writes : List Write
  error : Option JsError

/-- The cases `acronym` and `terms` of the persistence switch, which differ in
the loop that fills the batch: `reviewerRef.set` is awaited first, then the
batch is filled and committed. -/
def persistBatched (env : Env) (reviewerRef : Ref) (reviewerId : String) (parsed : Json)
    (batchOf : Ref → Json → Except JsError (List Write)) : Persisted :=
  match artifactTitle parsed with
  | .error e => ⟨[], some e⟩
  | .ok title =>
    match env.reviewerSetError with
    | some e => ⟨[], some e⟩
    | none =>
      let artifact : Write := ⟨reviewerRef, .artifact reviewerId title env.createdAt env.startDate⟩
      match batchOf reviewerRef parsed with
      | .error e => ⟨[artifact], some e⟩
      | .ok batch =>
        match env.commitError with
        | some e => ⟨[artifact], some e⟩
        | none => ⟨artifact :: batch, none⟩

/-- The persistence switch of lines 662-706. -/
def persist (env : Env) (reviewerRef : Ref) (reviewerId : String) (featureType : Feature)
    (parsed : Json) : Persisted :=
  match featureType with
  | .acronym =>
    persistBatched env reviewerRef reviewerId parsed (acronymBatch env.ignoreUndefinedProperties)
  | .terms => persistBatched env reviewerRef reviewerId parsed termsBatch
  | _ =>
    match env.reviewerSetError with
    | some e => ⟨[], some e⟩
    | none => ⟨[⟨reviewerRef, .embedded reviewerId [parsed] env.createdAt env.startDate⟩], none⟩

/-- The object with `id: reviewerId` followed by the spread of `parsed`; the
members are listed in the order they are defined. -/
def artifactObject (reviewerId : String) (parsed : Json) : Json :=
  .obj (parsed.spreadMembers.foldl assignMember [("id", .str reviewerId)])

/-- The step of lines 217-219: the markdown is post-processed for `summarize`
and `explain` only. -/
def prepareMarkdown (env : Env) (featureType : Feature) (markdown : String) : String :=
  if featureType = .summarize ∨ featureType = .explain then env.postprocessMarkdown markdown
  else markdown

/-- What one request does. -/
structure Outcome where
  /-- The answer sent to the caller. -/
  response : Response
  /-- The counter document of the user after the request. -/
  counters : Option CounterDoc
  /-- The completion calls made, in order, with their user prompts. -/
  gptCalls : List (Stage × String)
  /-- The writes the document store holds from this request, in order. -/
  writes : List Write

/-- The function `processFeature(req, res, featureType)` on the counter document
of the user. -/
def processFeature (env : Env) (counters : Option CounterDoc) (req : Request)
    (featureType : Feature) : Outcome :=
  let folderId := featureType.folderId
  let pfx := featureType.pfx
  let alloc := updateCounterAndGetId counters folderId pfx
  let reviewerId := alloc.2
  let markdown := req.markdown
  match contentGate markdown with
  | some rejection => ⟨rejection.response, alloc.1, [], []⟩
  | none =>
    let markdown := prepareMarkdown env featureType markdown
    if env.returnMarkdownOnly then ⟨.json 200 (.processedMarkdown markdown), alloc.1, [], []⟩
    else
      let staged := runStages env featureType markdown
      match staged.2 with
      | .respond r => ⟨r, alloc.1, staged.1, []⟩
      | .thrown e => ⟨caughtResponse featureType e, alloc.1, staged.1, []⟩
      | .parsed parsed =>
        let reviewerRef := reviewerRefOf req.uid folderId reviewerId
        let saved := persist env reviewerRef reviewerId featureType parsed
        match saved.error with
        | some e => ⟨caughtResponse featureType e, alloc.1, staged.1, saved.writes⟩
        | none =>
          ⟨.json 200 (.reviewers [artifactObject reviewerId parsed]), alloc.1, staged.1,
            saved.writes⟩

/-! ## Sample data -/

/-- A study text of 21 words and more than 50 letters. -/
def sampleText : String :=
  "photosynthesis is the process by which green plants convert light energy into chemical " ++
    "energy stored in glucose molecules for later use"

/-- A request of user `u1` with `sampleText` as inline markdown. -/
def sampleRequest : Request :=
  { uid := "u1", bodyMarkdown := some sampleText, fileText := none }

/-- A definition entry as the second stage of `terms` emits it. -/
def sampleOption (text type : String) : Json :=
  .obj [("text", .str text), ("type", .str type)]

/-- The question of the end-to-end example: one correct and three wrong entries. -/
def sampleQuestion : Json :=
  .obj [("id", .str "q1"), ("term", .str "Photosynthesis"),
    ("definition", .arr [
      sampleOption "Process by which plants convert light into energy" "correct",
      sampleOption "Process by which plants absorb water" "wrong",
      sampleOption "Process by which animals digest food" "wrong",
      sampleOption "Release of energy from glucose" "wrong"])]

/-- The output of the first `terms` stage in the end-to-end example. -/
def sampleStep1Text : String :=
  "\x7b\"title\":\"X\",\"questions\":[\x7b\"id\":\"q1\",\"term\":\"Photosynthesis\"" ++
    ",\"definition\":\"Process by which plants convert light into energy\"\x7d]\x7d"

/-- The value of `sampleStep1Text`. -/
def sampleStep1Result : Json :=
  .obj [("title", .str "X"), ("questions", .arr [
    .obj [("id", .str "q1"), ("term", .str "Photosynthesis"),
      ("definition", .str "Process by which plants convert light into energy")]])]

/-- The text `JSON.stringify(sampleStep1Result, null, 2)`. -/
def sampleStep1Pretty : String :=
  "\x7b\n  \"title\": \"X\",\n  \"questions\": [\n    \x7b\n      \"id\": \"q1\",\n" ++
    "      \"term\": \"Photosynthesis\",\n      \"definition\": \"Process by which pl" ++
    "ants convert light into energy\"\n    \x7d\n  ]\n\x7d"

/-- The output of the second `terms` stage in the end-to-end example. -/
def sampleTermsText : String :=
  "\x7b\"title\":\"X\",\"questions\":[\x7b\"id\":\"q1\",\"term\":\"Photosynthesis\"" ++
    ",\"definition\":[\x7b\"text\":\"Process by which plants convert light into energ" ++
    "y\",\"type\":\"correct\"\x7d,\x7b\"text\":\"Process by which plants absorb water" ++
    "\",\"type\":\"wrong\"\x7d,\x7b\"text\":\"Process by which animals digest food\"," ++
    "\"type\":\"wrong\"\x7d,\x7b\"text\":\"Release of energy from glucose\",\"type\":" ++
    "\"wrong\"\x7d]\x7d]\x7d"

/-- The final result of the end-to-end example: the value of `sampleTermsText`. -/
def sampleTermsResult : Json :=
  .obj [("title", .str "X"), ("questions", .arr [sampleQuestion])]

/-- An acronym output with a title and no `acronymGroups` member. -/
def sampleBareText : String :=
  "\x7b\"title\":\"Plants\"\x7d"

/-- The value of `sampleBareText`. -/
def sampleBareResult : Json := .obj [("title", .str "Plants")]

/-- An acronym output with one group of two items. -/
def sampleAcronymText : String :=
  "\x7b\"title\":\"Plants\",\"acronymGroups\":[\x7b\"id\":\"q1\",\"keyPhrase\":\"Pi" ++
    "nk Cats\",\"title\":\"Leaf parts\",\"contents\":[\x7b\"letter\":\"P\",\"word\":" ++
    "\"Photosynthesis\"\x7d,\x7b\"letter\":\"C\",\"word\":\"Chlorophyll\"\x7d]\x7d]" ++
    "\x7d"

/-- The value of `sampleAcronymText`. -/
def sampleAcronymResult : Json :=
  .obj [("title", .str "Plants"), ("acronymGroups", .arr [
    .obj [("id", .str "q1"), ("keyPhrase", .str "Pink Cats"), ("title", .str "Leaf parts"),
      ("contents", .arr [
        .obj [("letter", .str "P"), ("word", .str "Photosynthesis")],
        .obj [("letter", .str "C"), ("word", .str "Chlorophyll")]])]])]

/-- An acronym output whose only group has no `contents` member. -/
def sampleGroupWithoutContentsText : String :=
  "\x7b\"title\":\"Plants\",\"acronymGroups\":[\x7b\"id\":\"q1\",\"keyPhrase\":\"Pi" ++
    "nk Cats\",\"title\":\"Leaf parts\"\x7d]\x7d"

/-- The value of `sampleGroupWithoutContentsText`. -/
def sampleGroupWithoutContents : Json :=
  .obj [("title", .str "Plants"), ("acronymGroups", .arr [
    .obj [("id", .str "q1"), ("keyPhrase", .str "Pink Cats"), ("title", .str "Leaf parts")]])]

/-- A question whose term and definition text carry surrounding white space. -/
def samplePaddedQuestion : Json :=
  .obj [("id", .str "q1"), ("term", .str " Cell "),
    ("definition", .arr [sampleOption " Unit of life " "correct"])]

/-- The grouped term list a first acronym stage returns: markdown, not JSON. -/
def sampleStage0Output : String := "# Leaf parts\n- Photosynthesis\n- Chlorophyll"

/-- The function `JSON.parse` on the sample outputs; it throws on every other
text the samples hand to it. -/
def sampleParse (s : String) : Option Json :=
  if s = sampleStep1Text then some sampleStep1Result
  else if s = sampleTermsText then some sampleTermsResult
  else if s = sampleBareText then some sampleBareResult
  else if s = sampleAcronymText then some sampleAcronymResult
  else if s = sampleGroupWithoutContentsText then some sampleGroupWithoutContents
  else none

/-- The completion outputs of a sample run: the markdown list for the first
acronym stage, `sampleStep1Text` for the first `terms` stage, and the given
output for the last stage of the feature. -/
def sampleOutputs (last : String) : Stage → Option String
  | .acronymStep0 => some sampleStage0Output
  | .termsStep1 => some sampleStep1Text
  | _ => some last

/-- An environment in which each stage returns the given output and the store
operations fail as given. -/
def sampleEnv (outputs : Stage → Option String) (setError commitError : Option JsError) : Env :=
  { returnMarkdownOnly := false
    postprocessMarkdown := fun markdown => markdown
    generateWithGPT := fun stage _ => .ok (outputs stage)
    jsonParse := sampleParse
    jsonStringify := fun _ => sampleStep1Pretty
    ignoreUndefinedProperties := false
    reviewerSetError := setError
    commitError := commitError
    createdAt := 0
    startDate := 0 }

/-- A text of exactly 20 words and 86 letters. -/
def twentyWords : String :=
  "alpha beta gamma delta epsilon zeta eta theta iota kappa lambda mu nu xi omicron pi rho " ++
    "sigma tau upsilon"

/-- A text of exactly 19 words and 79 letters. -/
def nineteenWords : String :=
  "alpha beta gamma delta epsilon zeta eta theta iota kappa lambda mu nu xi omicron pi rho " ++
    "sigma tau"

/-- A text of 25 words and only 40 letters. -/
def fewLetters : String :=
  "ab ab ab ab ab ab ab ab ab ab ab ab ab ab ab ab ab ab ab ab 1 22 333 4! 5."

/-- The list member the persistence loop of a feature reads from the parsed
result: `acronymGroups` for `acronym`, `questions` for `terms`; `summarize` and
`explain` read none. -/
def Feature.listKey : Feature → Option String
  | .acronym => some "acronymGroups"
  | .terms => some "questions"
  | .summarize => none
  | .explain => none

/-- What is stored for a kept definition entry whose text is a string: the
trimmed text and the type. -/
def storedEntry (d : Json) : DefinitionEntry :=
  match d.optProp "text" with
  | some (.str text) => ⟨jsTrim text, d.optProp "type"⟩
  | _ => ⟨"", d.optProp "type"⟩

/-- The title of the Artifact Record: the title of the result, or `Untitled`
when the result has none. -/
def titleOrUntitled (title : Option Json) : Json :=
  match title with
  | some t => if t.truthy then t else .str "Untitled"
  | none => .str "Untitled"

/-- The leaf record of the item at position `p.1`: its letter and word, keyed
by the decimal string of the position under the Content Record. -/
def specLeafRecord (contentRef : Ref) (p : Nat × Json) : Write :=
  ⟨contentRef ++ [("contents", some (.str (toString p.1)))],
    .item (p.2.optProp "letter") (p.2.optProp "word")⟩

/-- The records of one acronym group as the mapping names them: the Content
Record with the id, key phrase and title of the group, keyed by the id of the
group, then one leaf record per item of its contents list, by position. -/
def specGroupRecords (reviewerRef : Ref) (group : Json) : List Write :=
  let contentRef := reviewerRef ++ [("content", group.optProp "id")]
  ⟨contentRef, .content (group.optProp "id") (group.optProp "keyPhrase") (group.optProp "title")⟩ ::
    match group.optProp "contents" with
    | some (.arr items) => items.enum.map (specLeafRecord contentRef)
    | _ => []

/-- The `id` fields of the artifacts of a success response, in order; no
artifacts for any other response. -/
def Response.artifactIds : Response → List (Option Json)
  | .json _ (.reviewers artifacts) => artifacts.map fun a => a.optProp "id"
  | _ => []

/-- A summarize output that carries an `id` member of its own. -/
def sampleSummaryText : String :=
  "\x7b\"id\":\"sec-1\",\"title\":\"Plants\",\"sections\":[]\x7d"

/-- The value of `sampleSummaryText`. -/
def sampleSummaryResult : Json :=
  .obj [("id", .str "sec-1"), ("title", .str "Plants"), ("sections", .arr [])]

/-- A terms output whose only question has a term and a definition text made
of spaces. -/
def sampleBlankText : String :=
  "\x7b\"title\":\"X\",\"questions\":[\x7b\"id\":\"q1\",\"term\":\"   \"," ++
    "\"definition\":[\x7b\"text\":\"  \",\"type\":\"correct\"\x7d]\x7d]\x7d"

/-- The question of `sampleBlankText`. -/
def sampleBlankQuestion : Json :=
  .obj [("id", .str "q1"), ("term", .str "   "),
    ("definition", .arr [sampleOption "  " "correct"])]

/-- The value of `sampleBlankText`. -/
def sampleBlankResult : Json :=
  .obj [("title", .str "X"), ("questions", .arr [sampleBlankQuestion])]

/-- The function `JSON.parse` on the further sample outputs. -/
def sampleParseMore (s : String) : Option Json :=
  if s = sampleSummaryText then some sampleSummaryResult
  else if s = sampleBlankText then some sampleBlankResult
  else sampleParse s

/-- The sample environment with `sampleParseMore` for `JSON.parse`. -/
def sampleEnvMore (outputs : Stage → Option String) (setError commitError : Option JsError) :
    Env :=
  { returnMarkdownOnly := false
    postprocessMarkdown := fun markdown => markdown
    generateWithGPT := fun stage _ => .ok (outputs stage)
    jsonParse := sampleParseMore
    jsonStringify := fun _ => sampleStep1Pretty
    ignoreUndefinedProperties := false
    reviewerSetError := setError
    commitError := commitError
    createdAt := 0
    startDate := 0 }

/-- The request of the rejection example: user `u1` with the text `a b c`. -/
def sampleShortRequest : Request :=
  { uid := "u1", bodyMarkdown := some "a b c", fileText := none }

/-- A document key of one segment: a non-empty string without a slash. -/
def isPlainId (key : Option Json) : Bool :=
  match key with
  | some (.str id) => id != "" && !id.data.contains '/'
  | _ => false

/-- An item of a contents list the acronym loop can store: not `null`, and with
a letter and a word unless the store ignores `undefined` fields. -/
def storableItem (ignoreUndefined : Bool) (item : Json) : Prop :=
  item ≠ .null ∧ (ignoreUndefined = true ∨
    ((item.optProp "letter").isSome = true ∧ (item.optProp "word").isSome = true))

/-- An acronym group the loop can store: an object whose id is a document key of
one segment, with a key phrase and a title unless the store ignores `undefined`
fields, and with a contents list of storable items. -/
def storableGroup (ignoreUndefined : Bool) (group : Json) : Prop :=
  ∃ members items, group = .obj members
    ∧ isPlainId (members.lookup "id") = true
    ∧ (ignoreUndefined = true ∨
      ((members.lookup "keyPhrase").isSome = true ∧ (members.lookup "title").isSome = true))
    ∧ members.lookup "contents" = some (.arr items)
    ∧ ∀ item ∈ items, storableItem ignoreUndefined item

/-- The Question Record of a question as the terms mapping names it, if the
question has one: for a non-empty term and a non-empty list of kept entries, the
trimmed term and the kept entries in order, each as its trimmed text and its
type, keyed by the id of the question. -/
def specQuestionRecord (reviewerRef : Ref) (q : Json) : Option Write :=
  match q.optProp "term", q.optProp "definition" with
  | some (.str term), some (.arr ds) =>
    if term ≠ "" ∧ (ds.filter keptDefinition).length ≠ 0 then
      some ⟨reviewerRef ++ [("questions", q.optProp "id")],
        .question (jsTrim term) ((ds.filter keptDefinition).map storedEntry)⟩
    else none
  | _, _ => none

/-- A question of the shape the terms schema gives it: the term is a string or
absent, the definition is an array or absent, the kept entries have string
texts, and a question that has a Question Record has a document key of one
segment for its id. -/
def schemaQuestion (q : Json) : Prop :=
  (∃ term : Option String, q.optProp "term" = term.map Json.str)
    ∧ (∃ defs : Option (List Json), q.optProp "definition" = defs.map Json.arr
      ∧ ∀ ds, defs = some ds → ∀ d ∈ ds, keptDefinition d = true →
        ∃ text, d.optProp "text" = some (.str text))
    ∧ ((specQuestionRecord [] q).isSome = true → isPlainId (q.optProp "id") = true)

/-- A terms result whose only question is `samplePaddedQuestion`. -/
def samplePaddedTerms : Json :=
  .obj [("title", .str "X"), ("questions", .arr [samplePaddedQuestion])]

/-- A terms result whose only question qualifies for a record and has no id. -/
def sampleNoIdTerms : Json :=
  .obj [("title", .str "X"), ("questions", .arr [
    .obj [("term", .str "Photosynthesis"),
      ("definition", .arr [
        sampleOption "Process by which plants convert light into energy" "correct"])]])]

/-- An acronym result whose only group has a contents list and no id. -/
def sampleNoIdAcronym : Json :=
  .obj [("title", .str "Plants"), ("acronymGroups", .arr [
    .obj [("keyPhrase", .str "Pink Cats"), ("title", .str "Leaf parts"),
      ("contents", .arr [.obj [("letter", .str "P"), ("word", .str "Photosynthesis")]])]])]

/-- An acronym result whose only group has an id and a contents list, and
neither key phrase nor title. -/
def sampleNoTitleAcronym : Json :=
  .obj [("title", .str "Plants"), ("acronymGroups", .arr [
    .obj [("id", .str "q1"),
      ("contents", .arr [.obj [("letter", .str "P"), ("word", .str "Photosynthesis")]])]])]

/-! ## Auxiliary notions used in the proofs -/

/-- 1 when the text starts with a character that is not white space. -/
def startsWord : List Char → Nat
  | [] => 0
  | c :: _ => if isJsSpace c then 0 else 1

/-- 1 when the text ends with white space. -/
def endsSpace : List Char → Nat
  | [] => 0
  | [c] => if isJsSpace c then 1 else 0
  | _ :: d :: cs => endsSpace (d :: cs)

/-- No three consecutive backticks anywhere in the text. -/
def NoFence : List Char → Prop
  | [] => True
  | c :: cs => fenceLen (c :: cs) = none ∧ NoFence cs

/-! # Properties -/

set_option maxRecDepth 20000


/-! ## The identifier allocator -/

theorem lookup_setField_self (d : CounterDoc) (k : String) (v : Nat) :
    (setField d k v).lookup k = some v := by
  induction d with
  | nil => simp [setField, List.lookup]
  | cons kv rest ih =>
    obtain ⟨k', v'⟩ := kv
    by_cases h : k' = k
    · simp [setField, h, List.lookup]
    · have hne : (k == k') = false := by
        simpa using fun h' : k = k' => h h'.symm
      simp [setField, h, List.lookup, hne, ih]

theorem lookup_setField_other (d : CounterDoc) (k g : String) (v : Nat) (hg : g ≠ k) :
    (setField d k v).lookup g = d.lookup g := by
  induction d with
  | nil =>
    have hne : (g == k) = false := by simpa using hg
    simp [setField, List.lookup, hne]
  | cons kv rest ih =>
    obtain ⟨k', v'⟩ := kv
    by_cases h : k' = k
    · subst h
      have hne : (g == k') = false := by simpa using hg
      simp [setField, List.lookup, hne]
    · simp only [setField, h, if_false, List.lookup]
      rw [ih]

theorem readCurrent_ensureCounters (doc : Option CounterDoc) (c : Feature) :
    readCurrent (ensureCounters doc) c.counterField = readCurrent doc c.counterField := by
  cases doc with
  | some d => rfl
  | none => cases c <;> rfl

/-- Up to 2^53 a sum of counters is exact. -/
theorem roundToDouble_of_le (m : Nat) (h : m ≤ 2 ^ 53) : roundToDouble m = m := by
  have h' : m ≤ maxExactInteger := by simpa [maxExactInteger] using h
  simp [roundToDouble, h']

theorem jsNumberToString_of_le (m : Nat) (h : m ≤ 2 ^ 53) : jsNumberToString m = toString m := by
  have h' : m ≤ maxExactInteger := by simpa [maxExactInteger] using h
  simp [jsNumberToString, h']

/-- C1, counterexample.  At the counter 2^53 the sum `current + 1` is rounded
back to 2^53: the allocation returns `ac9007199254740992`, the decimal of the
current counter and not of the current counter plus 1, and the stored counter
stays 2^53. -/
theorem allocation_stalls_at_two_pow_53 :
    counterValue (some [("acronymCounter", 2 ^ 53)]) Feature.acronym.counterField = 2 ^ 53
    ∧ (updateCounterAndGetId (some [("acronymCounter", 2 ^ 53)]) Feature.acronym.folderId
        Feature.acronym.pfx).2 = "ac9007199254740992"
    ∧ Feature.acronym.pfx ++ toString (2 ^ 53 + 1) = "ac9007199254740993"
    ∧ counterValue (updateCounterAndGetId (some [("acronymCounter", 2 ^ 53)])
        Feature.acronym.folderId Feature.acronym.pfx).1 Feature.acronym.counterField = 2 ^ 53 := by
  decide

/-- C1, amended.  Sequential allocation: for every counter document of a user
(an absent document counts as all counters 0) and every feature category `c`
whose counter is below 2^53, `updateCounterAndGetId` returns the prefix of `c`
followed by the decimal of the current counter of `c` plus 1, the stored counter
of `c` afterwards is the current one plus 1, and the first allocation of a new
user returns the prefix followed by `1`. -/
theorem updateCounterAndGetId_sequential (doc : Option CounterDoc) (c : Feature)
    (hsafe : counterValue doc c.counterField < 2 ^ 53) :
    (updateCounterAndGetId doc c.folderId c.pfx).2
        = c.pfx ++ toString (counterValue doc c.counterField + 1)
      ∧ counterValue (updateCounterAndGetId doc c.folderId c.pfx).1 c.counterField
        = counterValue doc c.counterField + 1
      ∧ (updateCounterAndGetId none c.folderId c.pfx).2 = c.pfx ++ "1" := by
  have h1 := readCurrent_ensureCounters doc c
  unfold Feature.counterField at h1
  simp only [counterValue, Feature.counterField] at hsafe
  have hr := roundToDouble_of_le (readCurrent doc (propertyKey (counterFieldOf c.folderId)) + 1)
    (by omega)
  have hs := jsNumberToString_of_le (readCurrent doc (propertyKey (counterFieldOf c.folderId)) + 1)
    (by omega)
  refine ⟨?_, ?_, ?_⟩
  · simp only [updateCounterAndGetId, counterValue, Feature.counterField, h1, hr, hs]
  · simp only [updateCounterAndGetId, counterValue, Feature.counterField, h1, hr]
    cases doc with
    | none => simp [ensureCounters, updateCounter, readCurrent, lookup_setField_self]
    | some d => simp [ensureCounters, updateCounter, readCurrent, lookup_setField_self]
  · cases c <;> rfl

/-- The terms allocation at a document with counters 2 and 5 returns `td6`. -/
theorem updateCounterAndGetId_sequential_witness :
    (updateCounterAndGetId (some [("acronymCounter", 2), ("termCounter", 5)])
        Feature.terms.folderId Feature.terms.pfx).2
        = Feature.terms.pfx ++ toString
            (counterValue (some [("acronymCounter", 2), ("termCounter", 5)])
              Feature.terms.counterField + 1)
      ∧ counterValue (updateCounterAndGetId (some [("acronymCounter", 2), ("termCounter", 5)])
          Feature.terms.folderId Feature.terms.pfx).1 Feature.terms.counterField
        = counterValue (some [("acronymCounter", 2), ("termCounter", 5)])
            Feature.terms.counterField + 1
      ∧ (updateCounterAndGetId none Feature.terms.folderId Feature.terms.pfx).2
        = Feature.terms.pfx ++ "1" :=
  updateCounterAndGetId_sequential (some [("acronymCounter", 2), ("termCounter", 5)]) .terms
    (by decide)

/-- C2, the failing schedule.  Two acronym allocations of a new user run
concurrently and take their steps in turn: both read the counter 0, both return
`ac1`, and the counter ends at 1, so the two suffixes are not distinct. -/
theorem concurrent_allocations_collide :
    (AllocState.run ⟨none, [⟨"AcronymMnemonics", "ac", .start⟩, ⟨"AcronymMnemonics", "ac", .start⟩]⟩
        [0, 1, 0, 1, 0, 1]).returnedIds = ["ac1", "ac1"]
      ∧ counterValue (AllocState.run
          ⟨none, [⟨"AcronymMnemonics", "ac", .start⟩, ⟨"AcronymMnemonics", "ac", .start⟩]⟩
          [0, 1, 0, 1, 0, 1]).doc "acronymCounter" = 1 := by
  decide

theorem counterField_injective (a b : Feature) (h : a ≠ b) : b.counterField ≠ a.counterField := by
  cases a <;> cases b <;> first | exact absurd rfl h | decide

/-- C3. Allocator isolation: for every counter document and every two distinct
feature categories `a` and `b`, an allocation for `a` leaves the counter of `b`
unchanged. -/
theorem allocation_isolates_categories (doc : Option CounterDoc) (a b : Feature) (h : a ≠ b) :
    counterValue (updateCounterAndGetId doc a.folderId a.pfx).1 b.counterField
      = counterValue doc b.counterField := by
  have hne := counterField_injective a b h
  have h1 := readCurrent_ensureCounters doc b
  unfold Feature.counterField at h1 hne
  simp only [updateCounterAndGetId, counterValue, Feature.counterField]
  rw [← h1]
  cases hd : ensureCounters doc with
  | none => cases doc <;> simp [ensureCounters] at hd
  | some d => simp [updateCounter, readCurrent, lookup_setField_other _ _ _ _ hne]

/-- The isolation theorem at a document with counters 2 and 5: an acronym
allocation leaves the terms counter at 5. -/
theorem allocation_isolates_categories_witness :
    Feature.acronym ≠ Feature.terms ∧
    counterValue (updateCounterAndGetId (some [("acronymCounter", 2), ("termCounter", 5)])
        Feature.acronym.folderId Feature.acronym.pfx).1 Feature.terms.counterField
      = counterValue (some [("acronymCounter", 2), ("termCounter", 5)]) Feature.terms.counterField :=
  ⟨by decide, allocation_isolates_categories _ _ _ (by decide)⟩



/-! ## The content gate -/

theorem trimChars_eq (cs : List Char) :
    trimChars cs = (cs.dropWhile isJsSpace).rdropWhile isJsSpace := rfl

theorem not_isJsSpace_of_isAsciiLetter (c : Char) (h : isAsciiLetter c = true) :
    isJsSpace c = false := by
  simp only [isAsciiLetter, isJsSpace, Bool.or_eq_true, Bool.and_eq_true, decide_eq_true_eq,
    beq_iff_eq] at h ⊢
  simp only [Bool.or_eq_false_iff, Bool.and_eq_false_iff, decide_eq_false_iff_not, beq_eq_false_iff_ne]
  omega

theorem countWordsFrom_dropWhile (cs : List Char) :
    countWordsFrom true (cs.dropWhile isJsSpace) = countWordsFrom true cs := by
  induction cs with
  | nil => rfl
  | cons c cs ih =>
    by_cases h : isJsSpace c = true
    · simp [List.dropWhile, h, countWordsFrom, ih]
    · simp [List.dropWhile, h]

theorem countWordsFrom_concat_space (b : Bool) (cs : List Char) (x : Char)
    (hx : isJsSpace x = true) :
    countWordsFrom b (cs ++ [x]) = countWordsFrom b cs := by
  induction cs generalizing b with
  | nil => simp [countWordsFrom, hx]
  | cons c cs ih => simp [countWordsFrom, ih]

theorem countWordsFrom_rdropWhile (b : Bool) (cs : List Char) :
    countWordsFrom b (cs.rdropWhile isJsSpace) = countWordsFrom b cs := by
  induction cs using List.reverseRecOn with
  | nil => simp
  | append_singleton l x ih =>
    by_cases h : isJsSpace x = true
    · rw [List.rdropWhile_concat_pos _ _ _ h, ih, countWordsFrom_concat_space b l x h]
    · rw [List.rdropWhile_concat_neg _ _ _ h]

theorem countWordsFrom_trimChars (cs : List Char) :
    countWordsFrom true (trimChars cs) = countWordsFrom true cs := by
  rw [trimChars_eq, countWordsFrom_rdropWhile, countWordsFrom_dropWhile]

theorem filter_letters_dropWhile (cs : List Char) :
    (cs.dropWhile isJsSpace).filter isAsciiLetter = cs.filter isAsciiLetter := by
  induction cs with
  | nil => rfl
  | cons c cs ih =>
    by_cases h : isJsSpace c = true
    · have hl : isAsciiLetter c = false := by
        cases hc : isAsciiLetter c with
        | false => rfl
        | true => rw [not_isJsSpace_of_isAsciiLetter c hc] at h; exact absurd h (by simp)
      simp [List.dropWhile, h, hl, ih]
    · simp [List.dropWhile, h]

theorem filter_letters_rdropWhile (cs : List Char) :
    (cs.rdropWhile isJsSpace).filter isAsciiLetter = cs.filter isAsciiLetter := by
  induction cs using List.reverseRecOn with
  | nil => simp
  | append_singleton l x ih =>
    by_cases h : isJsSpace x = true
    · have hl : isAsciiLetter x = false := by
        cases hc : isAsciiLetter x with
        | false => rfl
        | true => rw [not_isJsSpace_of_isAsciiLetter x hc] at h; exact absurd h (by simp)
      rw [List.rdropWhile_concat_pos _ _ _ h, ih]
      simp [hl]
    · rw [List.rdropWhile_concat_neg _ _ _ h]

theorem keepLetters_trimChars (cs : List Char) :
    keepLetters (trimChars cs) = cs.filter isAsciiLetter := by
  rw [keepLetters, trimChars_eq, filter_letters_rdropWhile, filter_letters_dropWhile]


theorem jsSplitWs_ne_nil (cs : List Char) : jsSplitWs cs ≠ [] := by
  induction cs with
  | nil => simp [jsSplitWs]
  | cons c cs ih =>
    unfold jsSplitWs
    split
    · split
      · simp
      · split <;> simp [*]
    · split <;> simp

theorem jsSplitWs_length (cs : List Char) :
    (jsSplitWs cs).length + startsWord cs = countWordsFrom true cs + 1 + endsSpace cs := by
  induction cs with
  | nil => simp [jsSplitWs, startsWord, countWordsFrom, endsSpace]
  | cons c cs ih =>
    cases cs with
    | nil =>
      by_cases h : isJsSpace c = true <;>
        simp [jsSplitWs, startsWord, countWordsFrom, endsSpace, h]
    | cons d ds =>
      by_cases h : isJsSpace c = true
      · by_cases hd : isJsSpace d = true
        · simp only [startsWord, hd, if_true] at ih
          simp [jsSplitWs, startsWord, countWordsFrom, endsSpace, h, hd] at ih ⊢
          omega
        · simp only [startsWord, hd] at ih
          simp [jsSplitWs, startsWord, countWordsFrom, endsSpace, h, hd] at ih ⊢
          omega
      · have hlen : (jsSplitWs (c :: d :: ds)).length = (jsSplitWs (d :: ds)).length := by
          rw [jsSplitWs]
          simp only [h]
          cases hs : jsSplitWs (d :: ds) with
          | nil => exact absurd hs (jsSplitWs_ne_nil _)
          | cons p ps => simp
        rw [hlen]
        by_cases hd : isJsSpace d = true
        · simp [startsWord, countWordsFrom, endsSpace, h, hd] at ih ⊢
          omega
        · simp [startsWord, countWordsFrom, endsSpace, h, hd] at ih ⊢
          omega


theorem endsSpace_eq_zero (cs : List Char) (h : ∀ hl : cs ≠ [], ¬ isJsSpace (cs.getLast hl) = true) :
    endsSpace cs = 0 := by
  induction cs with
  | nil => rfl
  | cons c cs ih =>
    cases cs with
    | nil => simpa [endsSpace] using h (by simp)
    | cons d ds =>
      simp only [endsSpace]
      apply ih
      intro hl
      have := h (by simp)
      simpa [List.getLast_cons hl] using this

theorem startsWord_trimChars (cs : List Char) (h : trimChars cs ≠ []) :
    startsWord (trimChars cs) = 1 := by
  rw [trimChars_eq] at h ⊢
  have hpre : (cs.dropWhile isJsSpace).rdropWhile isJsSpace <+: cs.dropWhile isJsSpace :=
    List.rdropWhile_prefix _ _
  obtain ⟨rest, hrest⟩ := hpre
  cases ht : (cs.dropWhile isJsSpace).rdropWhile isJsSpace with
  | nil => exact absurd ht h
  | cons a t =>
    rw [ht] at hrest
    have hne : cs.dropWhile isJsSpace ≠ [] := by
      rw [← hrest]; simp
    have hhead := List.head_dropWhile_not isJsSpace cs hne
    have ha : (cs.dropWhile isJsSpace).head hne = a := by
      simp [← hrest]
    rw [ha] at hhead
    simp [startsWord, hhead]

theorem endsSpace_trimChars (cs : List Char) : endsSpace (trimChars cs) = 0 := by
  rw [trimChars_eq]
  exact endsSpace_eq_zero _ (fun hl => List.rdropWhile_last_not _ _ hl)

theorem jsSplitWs_trimChars_length (cs : List Char) (n : Nat) (hn : 1 < n) :
    (jsSplitWs (trimChars cs)).length < n ↔ countWordsFrom true cs < n := by
  have key := jsSplitWs_length (trimChars cs)
  rw [endsSpace_trimChars, countWordsFrom_trimChars] at key
  by_cases h : trimChars cs = []
  · have hc := countWordsFrom_trimChars cs
    rw [h] at hc
    simp only [countWordsFrom] at hc
    rw [h, ← hc]
    simp only [jsSplitWs, List.length_singleton]
    omega
  · rw [startsWord_trimChars cs h] at key
    omega

/-- C4. Content gate decision: for every text, the gate lets the text pass if
and only if the text is non-empty, has at least 20 whitespace-delimited words
and has at least 50 letters `a-z`, `A-Z`; every refusal is a response of status
400, and it is the response of `processFeature` for a request with that text. -/
theorem contentGate_decision (text : String) :
    (contentGate text = none ↔
        text ≠ "" ∧ 20 ≤ specWordCount text ∧ 50 ≤ specLetterCount text)
      ∧ (∀ rejection, contentGate text = some rejection → rejection.response.status = 400)
      ∧ (∀ (env : Env) (counters : Option CounterDoc) (req : Request) (featureType : Feature)
          (rejection : GateRejection), req.markdown = text → contentGate text = some rejection →
          (processFeature env counters req featureType).response = rejection.response) := by
  refine ⟨?_, ?_, ?_⟩
  · unfold contentGate specWordCount specLetterCount
    by_cases h : text = ""
    · simp [h]
    · have hw := jsSplitWs_trimChars_length text.data 20 (by decide)
      simp only [h, if_false, keepLetters_trimChars]
      by_cases hw' : countWordsFrom true text.data < 20
      · simp only [hw.mpr hw', if_true]
        have : ¬ 20 ≤ countWordsFrom true text.data := by omega
        simp [this]
      · have hs : ¬ (jsSplitWs (trimChars text.data)).length < 20 := fun hc => hw' (hw.mp hc)
        simp only [hs, if_false]
        by_cases hl : (text.data.filter isAsciiLetter).length < 50
        · simp only [hl, if_true]
          have : ¬ 50 ≤ (text.data.filter isAsciiLetter).length := by omega
          simp [this]
        · simp only [hl, if_false]
          refine ⟨fun _ => ⟨h, by omega, by omega⟩, fun _ => trivial⟩
  · intro rejection _
    cases rejection <;> rfl
  · intro env counters req featureType rejection hreq hgate
    simp only [processFeature, hreq, hgate]


/-- The boundary texts of the gate: 20 words with 86 letters pass, 19 words are
refused, 25 words with 40 letters are refused. -/
theorem contentGate_decision_witness :
    contentGate twentyWords = none ∧ contentGate nineteenWords ≠ none
      ∧ contentGate fewLetters ≠ none :=
  ⟨(contentGate_decision twentyWords).1.mpr ⟨by decide, by decide, by decide⟩,
    fun h => absurd ((contentGate_decision nineteenWords).1.mp h).2.1 (by decide),
    fun h => absurd ((contentGate_decision fewLetters).1.mp h).2.2 (by decide)⟩

/-! ## Fence stripping -/



theorem fenceLen_eq_some (l : List Char) (k : Nat) (h : fenceLen l = some k) :
    ∃ r, l = tick :: tick :: tick :: r := by
  match l, h with
  | a :: b :: c :: r, h =>
    simp only [fenceLen] at h
    split at h
    · next hc => obtain ⟨rfl, rfl, rfl⟩ := hc; exact ⟨r, rfl⟩
    · exact absurd h (by simp)

theorem fenceLen_ticks (r : List Char) : fenceLen (tick :: tick :: tick :: r) = some 3 := by
  simp [fenceLen]

theorem jsonFenceLen_fence (l : List Char) (k : Nat) (h : jsonFenceLen l = some k) :
    fenceLen l = some 3 := by
  match l, h with
  | a :: b :: c :: j :: s :: o :: n :: rest, h =>
    simp only [jsonFenceLen] at h
    split at h
    · next hc => obtain ⟨rfl, rfl, rfl, _⟩ := hc; exact fenceLen_ticks _
    · exact absurd h (by simp)

theorem deleteAll_fence_head (cs : List Char) (r : List Char)
    (h : deleteAll fenceLen 0 cs = tick :: r) : ∃ r', cs = tick :: r' := by
  cases cs with
  | nil => simp [deleteAll] at h
  | cons c cs =>
    cases hf : fenceLen (c :: cs) with
    | some k =>
      obtain ⟨r', hr'⟩ := fenceLen_eq_some _ _ hf
      exact ⟨_, hr'⟩
    | none =>
      simp only [deleteAll, hf] at h
      simp only [List.cons.injEq] at h
      exact ⟨cs, by rw [h.1]⟩

theorem deleteAll_fence_head2 (cs : List Char) (r : List Char)
    (h : deleteAll fenceLen 0 cs = tick :: tick :: r) : ∃ r', cs = tick :: tick :: r' := by
  cases cs with
  | nil => simp [deleteAll] at h
  | cons c cs =>
    cases hf : fenceLen (c :: cs) with
    | some k =>
      obtain ⟨r', hr'⟩ := fenceLen_eq_some _ _ hf
      exact ⟨_, hr'⟩
    | none =>
      simp only [deleteAll, hf] at h
      simp only [List.cons.injEq] at h
      obtain ⟨r', hr'⟩ := deleteAll_fence_head cs r h.2
      exact ⟨r', by rw [h.1, hr']⟩

theorem noFence_deleteAll (cs : List Char) (skip : Nat) :
    NoFence (deleteAll fenceLen skip cs) := by
  induction cs generalizing skip with
  | nil => cases skip <;> simp [deleteAll, NoFence]
  | cons c cs ih =>
    cases skip with
    | succ n => simpa [deleteAll] using ih n
    | zero =>
      cases hf : fenceLen (c :: cs) with
      | some k =>
        obtain ⟨r', hr'⟩ := fenceLen_eq_some _ _ hf
        rw [hr', fenceLen_ticks] at hf
        have hk : k = 3 := by simpa using hf.symm
        subst hk
        rw [hr']
        simp only [deleteAll, fenceLen_ticks]
        have := ih 2
        simp only [List.cons.injEq] at hr'
        rw [hr'.2] at this
        exact this
      | none =>
        simp only [deleteAll, hf]
        refine ⟨?_, ih 0⟩
        cases hg : fenceLen (c :: deleteAll fenceLen 0 cs) with
        | none => rfl
        | some k =>
          exfalso
          obtain ⟨r', hr'⟩ := fenceLen_eq_some _ _ hg
          simp only [List.cons.injEq] at hr'
          obtain ⟨r'', hr''⟩ := deleteAll_fence_head2 cs r' hr'.2
          rw [hr'.1, hr'', fenceLen_ticks] at hf
          exact absurd hf (by simp)

theorem deleteAll_of_noFence (matchLen : List Char → Option Nat)
    (hm : ∀ l k, matchLen l = some k → fenceLen l = some 3) (cs : List Char) (h : NoFence cs) :
    deleteAll matchLen 0 cs = cs := by
  induction cs with
  | nil => rfl
  | cons c cs ih =>
    obtain ⟨h1, h2⟩ := h
    cases hf : matchLen (c :: cs) with
    | some k => rw [hm _ _ hf] at h1; exact absurd h1 (by simp)
    | none => simp only [deleteAll, hf, ih h2]

theorem noFence_dropWhile (p : Char → Bool) (cs : List Char) (h : NoFence cs) :
    NoFence (cs.dropWhile p) := by
  induction cs with
  | nil => exact h
  | cons c cs ih =>
    by_cases hp : p c = true
    · simpa [List.dropWhile, hp] using ih h.2
    · simpa [List.dropWhile, hp] using h

theorem noFence_of_concat (cs : List Char) (x : Char) (h : NoFence (cs ++ [x])) : NoFence cs := by
  induction cs with
  | nil => trivial
  | cons c cs ih =>
    obtain ⟨h1, h2⟩ := h
    refine ⟨?_, ih h2⟩
    cases hf : fenceLen (c :: cs) with
    | none => rfl
    | some k =>
      obtain ⟨r, hr⟩ := fenceLen_eq_some _ _ hf
      simp only [List.cons.injEq] at hr
      obtain ⟨hc, hcs⟩ := hr
      rw [hc, hcs] at h1
      simp [fenceLen] at h1

theorem noFence_rdropWhile (p : Char → Bool) (cs : List Char) (h : NoFence cs) :
    NoFence (cs.rdropWhile p) := by
  induction cs using List.reverseRecOn with
  | nil => simpa using h
  | append_singleton l x ih =>
    by_cases hp : p x = true
    · rw [List.rdropWhile_concat_pos _ _ _ hp]
      exact ih (noFence_of_concat l x h)
    · rw [List.rdropWhile_concat_neg _ _ _ hp]
      exact h

theorem noFence_trimChars (cs : List Char) (h : NoFence cs) : NoFence (trimChars cs) := by
  rw [trimChars_eq]
  exact noFence_rdropWhile _ _ (noFence_dropWhile _ _ h)

theorem head_trimChars (cs : List Char) (a : Char) (t : List Char)
    (ht : trimChars cs = a :: t) : isJsSpace a = false := by
  rw [trimChars_eq] at ht
  obtain ⟨rest, hrest⟩ := List.rdropWhile_prefix isJsSpace (cs.dropWhile isJsSpace)
  rw [ht] at hrest
  have hne : cs.dropWhile isJsSpace ≠ [] := by rw [← hrest]; simp
  have hhead := List.head_dropWhile_not isJsSpace cs hne
  have ha : (cs.dropWhile isJsSpace).head hne = a := by simp [← hrest]
  rw [ha] at hhead
  exact hhead

theorem trimChars_idem (cs : List Char) : trimChars (trimChars cs) = trimChars cs := by
  have h1 : (trimChars cs).dropWhile isJsSpace = trimChars cs := by
    cases ht : trimChars cs with
    | nil => rfl
    | cons a t => simp [List.dropWhile, head_trimChars cs a t ht]
  have h2 : trimChars (trimChars cs) = (trimChars cs).rdropWhile isJsSpace := by
    rw [trimChars_eq (trimChars cs), h1]
  rw [h2, trimChars_eq, List.rdropWhile_idempotent]

theorem stripFencedChars_idem (cs : List Char) :
    stripFencedChars (stripFencedChars cs) = stripFencedChars cs := by
  have hno : NoFence (stripFencedChars cs) :=
    noFence_trimChars _ (noFence_deleteAll _ 0)
  have h1 := deleteAll_of_noFence jsonFenceLen jsonFenceLen_fence _ hno
  have h2 := deleteAll_of_noFence fenceLen
    (fun l k h => by
      obtain ⟨r, hr⟩ := fenceLen_eq_some l k h
      rw [hr]; exact fenceLen_ticks r) _ hno
  conv_lhs => rw [stripFencedChars, h1, h2]
  exact trimChars_idem _

/-- C9. Fence stripping is idempotent: for every string `t`,
`stripFenced (stripFenced t) = stripFenced t`. -/
theorem stripFenced_idempotent (t : String) : stripFenced (stripFenced t) = stripFenced t := by
  by_cases h : t = ""
  · subst h; rfl
  · by_cases h2 : stripFenced t = ""
    · rw [h2]; rfl
    · have h3 : stripFenced t = String.mk (stripFencedChars t.data) := by
        simp [stripFenced, h]
      rw [h3] at h2 ⊢
      simp only [stripFenced, h2, if_false, stripFencedChars_idem]

/-- C8, the failing inputs.  The cleaning of the parsing stages keeps a closing
fence that is followed by a line break, and keeps an opening fence that carries
no `json` tag; the helper `stripFenced` removes both. -/
theorem cleanStageOutput_keeps_fence :
    cleanStageOutput "```json\n\x7b\"a\":1\x7d\n```\n" = "\x7b\"a\":1\x7d\n```"
      ∧ cleanStageOutput "```\n\x7b\"a\":1\x7d\n```" = "```\n\x7b\"a\":1\x7d"
      ∧ stripFenced "```json\n\x7b\"a\":1\x7d\n```\n" = "\x7b\"a\":1\x7d"
      ∧ stripFenced "```\n\x7b\"a\":1\x7d\n```" = "\x7b\"a\":1\x7d" := by
  decide




/-! ## Persistence -/

/-- C5, the failing input.  For the `terms` request of the end-to-end example,
when the batch commit fails the store still holds the Artifact Record at
`users/u1/folders/TermsAndDefinitions/reviewers/td1`, and the request is answered
with status 400; the same holds for an `acronym` request whose loop throws on a
group without `contents`. -/
theorem commit_failure_leaves_artifact :
    (processFeature (sampleEnv (sampleOutputs sampleTermsText) none
        (some (.failure "commit failed"))) none sampleRequest .terms).writes
      = [⟨reviewerRefOf "u1" "TermsAndDefinitions" "td1", .artifact "td1" (.str "X") 0 0⟩]
    ∧ (processFeature (sampleEnv (sampleOutputs sampleTermsText) none
        (some (.failure "commit failed"))) none sampleRequest .terms).response.status = 400
    ∧ (processFeature (sampleEnv (sampleOutputs sampleGroupWithoutContentsText) none none)
        none sampleRequest .acronym).writes
      = [⟨reviewerRefOf "u1" "AcronymMnemonics" "ac1", .artifact "ac1" (.str "Plants") 0 0⟩]
    ∧ (processFeature (sampleEnv (sampleOutputs sampleGroupWithoutContentsText) none none)
        none sampleRequest .acronym).response.status = 400 :=
  ⟨rfl, rfl, rfl, rfl⟩

/-- C6, counterexample.  An acronym result that parses as JSON and has no
`acronymGroups` list is accepted: the request is answered with status 200 and
the Artifact Record is written. -/
theorem result_without_groups_is_accepted :
    (processFeature (sampleEnv (sampleOutputs sampleBareText) none none)
        none sampleRequest .acronym).response.status = 200
    ∧ (processFeature (sampleEnv (sampleOutputs sampleBareText) none none)
        none sampleRequest .acronym).writes
      = [⟨reviewerRefOf "u1" "AcronymMnemonics" "ac1", .artifact "ac1" (.str "Plants") 0 0⟩] :=
  ⟨rfl, rfl⟩

theorem persist_without_list (env : Env) (ref : Ref) (reviewerId : String) (f : Feature)
    (members : List (String × Json))
    (hlist : ∀ key, f.listKey = some key → members.lookup key = none)
    (hset : env.reviewerSetError = none) (hcommit : env.commitError = none) :
    (persist env ref reviewerId f (.obj members)).error = none
      ∧ ∃ data, (persist env ref reviewerId f (.obj members)).writes = [⟨ref, data⟩] := by
  cases f with
  | acronym =>
    have h := hlist "acronymGroups" rfl
    simp only [persist, persistBatched, artifactTitle, Json.prop, acronymBatch, h, hset, hcommit,
      orEmptyList, Json.iterate, acronymGroupsWrites]
    cases members.lookup "title" <;> exact ⟨rfl, _, rfl⟩
  | terms =>
    have h := hlist "questions" rfl
    simp only [persist, persistBatched, artifactTitle, Json.prop, termsBatch, h, hset, hcommit,
      orEmptyList, Json.iterate, questionsWrites]
    cases members.lookup "title" <;> exact ⟨rfl, _, rfl⟩
  | summarize =>
    exact ⟨by simp only [persist, hset],
      .embedded reviewerId [.obj members] env.createdAt env.startDate, by simp only [persist, hset]⟩
  | explain =>
    exact ⟨by simp only [persist, hset],
      .embedded reviewerId [.obj members] env.createdAt env.startDate, by simp only [persist, hset]⟩

/-- C6, amended.  The parsed result of the final stage is not checked against a
schema: for every feature, when the final stage yields an object without the
list of that feature (`acronymGroups` for acronym, `questions` for terms; any
object for summarize and explain) and the store operations succeed, the request
is answered with status 200 and exactly one record is written, the Artifact
Record, with no child record. -/
theorem unvalidated_result_is_persisted (env : Env) (counters : Option CounterDoc)
    (req : Request) (f : Feature) (members : List (String × Json))
    (hgate : contentGate req.markdown = none)
    (hmode : env.returnMarkdownOnly = false)
    (hstages : (runStages env f (prepareMarkdown env f req.markdown)).2 = .parsed (.obj members))
    (hlist : ∀ key, f.listKey = some key → members.lookup key = none)
    (hset : env.reviewerSetError = none) (hcommit : env.commitError = none) :
    (processFeature env counters req f).response.status = 200
      ∧ ∃ data, (processFeature env counters req f).writes
          = [⟨reviewerRefOf req.uid f.folderId (updateCounterAndGetId counters f.folderId f.pfx).2,
              data⟩] := by
  have hp := persist_without_list env
    (reviewerRefOf req.uid f.folderId (updateCounterAndGetId counters f.folderId f.pfx).2)
    (updateCounterAndGetId counters f.folderId f.pfx).2 f members hlist hset hcommit
  obtain ⟨herr, data, hw⟩ := hp
  simp only [processFeature, hgate, hmode, hstages, herr, hw]
  exact ⟨rfl, data, rfl⟩

/-- The acronym request whose final stage returns an object with a title only. -/
theorem unvalidated_result_is_persisted_witness :
    (processFeature (sampleEnv (sampleOutputs sampleBareText) none none)
        none sampleRequest .acronym).response.status = 200
      ∧ ∃ data, (processFeature (sampleEnv (sampleOutputs sampleBareText) none none) none
          sampleRequest .acronym).writes
          = [⟨reviewerRefOf "u1" "AcronymMnemonics" "ac1", data⟩] :=
  unvalidated_result_is_persisted
    (sampleEnv (sampleOutputs sampleBareText) none none) none sampleRequest
    .acronym [("title", .str "Plants")] (by decide) rfl rfl
    (by intro key hkey; cases hkey; rfl) rfl rfl

/-! ## Stage failures -/

/-- C7, counterexample.  The output of the first acronym stage is markdown that
does not parse as JSON, yet the request goes on: the second stage is called, the
answer has status 200 and four records are written. -/
theorem acronym_stage0_is_not_parsed :
    (sampleEnv (sampleOutputs sampleAcronymText) none none).generateWithGPT .acronymStep0
        (contentPrompt sampleText) = .ok (some sampleStage0Output)
    ∧ sampleParse (stripFenced sampleStage0Output) = none
    ∧ sampleParse (cleanStageOutput sampleStage0Output) = none
    ∧ ((processFeature (sampleEnv (sampleOutputs sampleAcronymText) none none)
        none sampleRequest .acronym).gptCalls.map Prod.fst) = [.acronymStep0, .acronymStep1]
    ∧ (processFeature (sampleEnv (sampleOutputs sampleAcronymText) none none)
        none sampleRequest .acronym).response.status = 200
    ∧ (processFeature (sampleEnv (sampleOutputs sampleAcronymText) none none)
        none sampleRequest .acronym).writes.length = 4 :=
  ⟨rfl, rfl, rfl, rfl, rfl, rfl⟩

theorem runStages_parse_failure (env : Env) (f : Feature) (markdown : String)
    (s : Stage) (prompt : String) (o : Option String)
    (hmode : env.returnMarkdownOnly = false)
    (hcall : (s, prompt) ∈ (runStages env f markdown).1)
    (hs : s ≠ .acronymStep0)
    (hout : env.generateWithGPT s prompt = .ok o)
    (hparse : parseStage env o = none) :
    (∃ r, (runStages env f markdown).2 = .respond r ∧ r.status = 500)
      ∧ ∃ earlier, (runStages env f markdown).1 = earlier ++ [(s, prompt)] := by
  have key : ∀ (s' : Stage) (p' : String) (o' : Option String),
      env.generateWithGPT s' p' = .ok o' → (s, prompt) = (s', p') → o = o' := by
    intro s' p' o' h' heq
    simp only [Prod.mk.injEq] at heq
    rw [heq.1, heq.2, h'] at hout
    simpa using hout.symm
  have keyErr : ∀ (s' : Stage) (p' : String) (e : JsError),
      env.generateWithGPT s' p' = .error e → (s, prompt) ≠ (s', p') := by
    intro s' p' e h' heq
    simp only [Prod.mk.injEq] at heq
    rw [heq.1, heq.2, h'] at hout
    exact absurd hout (by simp)
  cases f with
  | acronym =>
    simp only [runStages, runAcronym, hmode] at hcall ⊢
    cases h0 : env.generateWithGPT .acronymStep0 (contentPrompt markdown) with
    | error e =>
      simp only [h0] at hcall
      simp at hcall
      exact absurd hcall.1 hs
    | ok out0 =>
      simp only [h0] at hcall ⊢
      simp only [Bool.false_eq_true, if_false] at hcall ⊢
      generalize (if stripFenced (out0.getD "") = "" then env.postprocessMarkdown markdown
        else stripFenced (out0.getD "")) = cleaned at hcall ⊢
      cases h1 : env.generateWithGPT .acronymStep1 (contentPrompt cleaned) with
      | error e =>
        simp only [h1] at hcall
        simp only [List.singleton_append, List.mem_cons, List.mem_singleton, List.not_mem_nil,
          or_false] at hcall
        rcases hcall with hc | hc
        · simp only [Prod.mk.injEq] at hc; exact absurd hc.1 hs
        · exact absurd hc (keyErr _ _ _ h1)
      | ok out1 =>
        simp only [h1] at hcall ⊢
        cases hp : parseStage env out1 with
        | none =>
          simp only [hp] at hcall ⊢
          simp only [List.singleton_append, List.mem_cons, List.mem_singleton, List.not_mem_nil,
            or_false] at hcall
          rcases hcall with hc | hc
          · simp only [Prod.mk.injEq] at hc; exact absurd hc.1 hs
          · exact ⟨⟨_, rfl, rfl⟩, [(.acronymStep0, contentPrompt markdown)], by rw [hc]⟩
        | some j =>
          simp only [hp] at hcall
          simp only [List.singleton_append, List.mem_cons, List.mem_singleton, List.not_mem_nil,
            or_false] at hcall
          rcases hcall with hc | hc
          · simp only [Prod.mk.injEq] at hc; exact absurd hc.1 hs
          · have := key _ _ _ h1 hc
            rw [this, hp] at hparse
            exact absurd hparse (by simp)
  | terms =>
    simp only [runStages, runTerms] at hcall ⊢
    cases h1 : env.generateWithGPT .termsStep1 (contentPrompt markdown) with
    | error e =>
      simp only [h1] at hcall
      simp only [List.mem_singleton] at hcall
      exact absurd hcall (keyErr _ _ _ h1)
    | ok out1 =>
      simp only [h1] at hcall ⊢
      cases hp1 : parseStage env out1 with
      | none =>
        simp only [hp1] at hcall ⊢
        simp only [List.mem_singleton] at hcall
        exact ⟨⟨_, rfl, rfl⟩, [], by rw [hcall]; rfl⟩
      | some j1 =>
        simp only [hp1] at hcall ⊢
        cases h2 : env.generateWithGPT .termsStep2 (extractedPrompt env j1) with
        | error e =>
          simp only [h2] at hcall
          simp only [List.singleton_append, List.mem_cons, List.mem_singleton, List.not_mem_nil,
            or_false] at hcall
          rcases hcall with hc | hc
          · have := key _ _ _ h1 hc
            rw [this, hp1] at hparse
            exact absurd hparse (by simp)
          · exact absurd hc (keyErr _ _ _ h2)
        | ok out2 =>
          simp only [h2] at hcall ⊢
          cases hp2 : parseStage env out2 with
          | none =>
            simp only [hp2] at hcall ⊢
            simp only [List.singleton_append, List.mem_cons, List.mem_singleton, List.not_mem_nil,
              or_false] at hcall
            rcases hcall with hc | hc
            · have := key _ _ _ h1 hc
              rw [this, hp1] at hparse
              exact absurd hparse (by simp)
            · exact ⟨⟨_, rfl, rfl⟩, [(.termsStep1, contentPrompt markdown)], by rw [hc]⟩
          | some j2 =>
            simp only [hp2] at hcall
            simp only [List.singleton_append, List.mem_cons, List.mem_singleton, List.not_mem_nil,
              or_false] at hcall
            rcases hcall with hc | hc
            · have := key _ _ _ h1 hc
              rw [this, hp1] at hparse
              exact absurd hparse (by simp)
            · have := key _ _ _ h2 hc
              rw [this, hp2] at hparse
              exact absurd hparse (by simp)
  | summarize =>
    simp only [runStages, runSingle] at hcall ⊢
    cases h1 : env.generateWithGPT (.single .summarize) (contentPrompt markdown) with
    | error e =>
      simp only [h1] at hcall
      simp only [List.mem_singleton] at hcall
      exact absurd hcall (keyErr _ _ _ h1)
    | ok out1 =>
      simp only [h1] at hcall ⊢
      cases hp1 : parseStage env out1 with
      | none =>
        simp only [hp1] at hcall ⊢
        simp only [List.mem_singleton] at hcall
        exact ⟨⟨_, rfl, rfl⟩, [], by rw [hcall]; rfl⟩
      | some j1 =>
        simp only [hp1] at hcall
        simp only [List.mem_singleton] at hcall
        have := key _ _ _ h1 hcall
        rw [this, hp1] at hparse
        exact absurd hparse (by simp)
  | explain =>
    simp only [runStages, runSingle] at hcall ⊢
    cases h1 : env.generateWithGPT (.single .explain) (contentPrompt markdown) with
    | error e =>
      simp only [h1] at hcall
      simp only [List.mem_singleton] at hcall
      exact absurd hcall (keyErr _ _ _ h1)
    | ok out1 =>
      simp only [h1] at hcall ⊢
      cases hp1 : parseStage env out1 with
      | none =>
        simp only [hp1] at hcall ⊢
        simp only [List.mem_singleton] at hcall
        exact ⟨⟨_, rfl, rfl⟩, [], by rw [hcall]; rfl⟩
      | some j1 =>
        simp only [hp1] at hcall
        simp only [List.mem_singleton] at hcall
        have := key _ _ _ h1 hcall
        rw [this, hp1] at hparse
        exact absurd hparse (by simp)

/-- C7, amended.  For every feature and every stage whose output is parsed (every
stage but the first acronym stage): if the stage was called, returned an output
and that output is missing or, once cleaned, does not parse as JSON, then the
request is answered with status 500, the stage is the last completion call made,
and no record is written. -/
theorem parsed_stage_failure_aborts (env : Env) (counters : Option CounterDoc) (req : Request)
    (f : Feature) (s : Stage) (prompt : String) (o : Option String)
    (hcall : (s, prompt) ∈ (processFeature env counters req f).gptCalls)
    (hs : s ≠ .acronymStep0)
    (hout : env.generateWithGPT s prompt = .ok o)
    (hparse : parseStage env o = none) :
    (processFeature env counters req f).response.status = 500
      ∧ (∃ earlier, (processFeature env counters req f).gptCalls = earlier ++ [(s, prompt)])
      ∧ (processFeature env counters req f).writes = [] := by
  unfold processFeature at hcall ⊢
  simp only at hcall ⊢
  cases hg : contentGate req.markdown with
  | some rejection => simp [hg] at hcall
  | none =>
    simp only [hg] at hcall ⊢
    cases hmode : env.returnMarkdownOnly with
    | true => simp [hmode] at hcall
    | false =>
      simp only [hmode, Bool.false_eq_true, if_false] at hcall ⊢
      cases hst : (runStages env f (prepareMarkdown env f req.markdown)).2 with
      | respond r =>
        simp only [hst] at hcall ⊢
        obtain ⟨⟨r', hr', hstatus⟩, hlast⟩ :=
          runStages_parse_failure env f _ s prompt o hmode hcall hs hout hparse
        rw [hst] at hr'
        cases hr'
        exact ⟨hstatus, hlast, trivial⟩
      | thrown e =>
        simp only [hst] at hcall
        obtain ⟨⟨r', hr', _⟩, _⟩ :=
          runStages_parse_failure env f _ s prompt o hmode hcall hs hout hparse
        rw [hst] at hr'
        cases hr'
      | parsed j =>
        simp only [hst] at hcall
        have hcall' : (s, prompt) ∈ (runStages env f (prepareMarkdown env f req.markdown)).1 := by
          split at hcall <;> exact hcall
        obtain ⟨⟨r', hr', _⟩, _⟩ :=
          runStages_parse_failure env f _ s prompt o hmode hcall' hs hout hparse
        rw [hst] at hr'
        cases hr'



/-- The summarize request whose only stage returns a refusal in plain words. -/
theorem parsed_stage_failure_aborts_witness :
    (processFeature (sampleEnv (sampleOutputs "Sorry, I cannot help.") none none) none
        sampleRequest .summarize).response.status = 500
      ∧ (∃ earlier, (processFeature (sampleEnv (sampleOutputs "Sorry, I cannot help.") none none)
          none sampleRequest .summarize).gptCalls
          = earlier ++ [(.single .summarize, contentPrompt sampleText)])
      ∧ (processFeature (sampleEnv (sampleOutputs "Sorry, I cannot help.") none none) none
          sampleRequest .summarize).writes = [] :=
  parsed_stage_failure_aborts (sampleEnv (sampleOutputs "Sorry, I cannot help.") none none) none
    sampleRequest .summarize (.single .summarize) (contentPrompt sampleText)
    (some "Sorry, I cannot help.") (List.mem_singleton.mpr rfl) (by decide) rfl rfl

/-! ## The mapping of terms results -/

theorem prop_of_optProp (d : Json) (key : String) (v : Json) (h : d.optProp key = some v) :
    d.prop key = .ok (d.optProp key) := by
  cases d <;> first | (simp [Json.optProp] at h; done) | rfl

theorem definitionEntry_of_text (d : Json) (t : String) (h : d.optProp "text" = some (.str t)) :
    definitionEntry d = .ok (storedEntry d) := by
  have h1 := prop_of_optProp d "text" _ h
  have h2 : d.prop "type" = .ok (d.optProp "type") := by
    cases d <;> first | (simp [Json.optProp] at h; done) | rfl
  simp only [definitionEntry, h1, h2, h, storedEntry, Json.trim, bind, Except.bind, pure,
    Except.pure]

theorem definitionEntries_of_text (ds : List Json)
    (h : ∀ d ∈ ds, ∃ t, d.optProp "text" = some (.str t)) :
    definitionEntries ds = .ok (ds.map storedEntry) := by
  induction ds with
  | nil => rfl
  | cons d rest ih =>
    obtain ⟨t, ht⟩ := h d (List.mem_cons_self _ _)
    have hrest := ih (fun d' hd' => h d' (List.mem_cons_of_mem _ hd'))
    simp only [definitionEntries, definitionEntry_of_text d t ht, hrest, bind, Except.bind, pure,
      Except.pure, List.map_cons]

theorem splitSlash_of_no_slash (cs : List Char) (h : cs.contains '/' = false) :
    splitSlash cs = [cs] := by
  induction cs with
  | nil => rfl
  | cons c rest ih =>
    simp only [List.contains_cons, Bool.or_eq_false_iff] at h
    have hc : ¬ c = '/' := by
      intro hc
      rw [hc] at h
      simp at h
    simp only [splitSlash, hc, if_false, ih h.2]

theorem hasDoubleSlash_of_no_slash (cs : List Char) (h : cs.contains '/' = false) :
    hasDoubleSlash cs = false := by
  induction cs with
  | nil => rfl
  | cons c rest ih =>
    simp only [List.contains_cons, Bool.or_eq_false_iff] at h
    cases rest with
    | nil => rfl
    | cons d rest' =>
      have hc : (c == '/') = false := by
        cases hcc : c == '/' with
        | false => rfl
        | true =>
          have : c = '/' := by simpa using hcc
          rw [this] at h
          simp at h
      simp only [hasDoubleSlash, hc, Bool.false_and, Bool.false_or]
      exact ih h.2

theorem docRef_of_plainId (parent : Ref) (collection : String) (key : Option Json)
    (h : isPlainId key = true) :
    docRef parent collection key = .ok (parent ++ [(collection, key)]) := by
  match key, h with
  | some (.str id), h =>
    simp only [isPlainId, Bool.and_eq_true, bne_iff_ne, ne_eq, Bool.not_eq_true'] at h
    obtain ⟨hne, hslash⟩ := h
    have hdata : id.data ≠ [] := by
      intro hd
      apply hne
      cases id
      simp_all
    have hempty : id.data.isEmpty = false := by
      cases hd : id.data with
      | nil => exact absurd hd hdata
      | cons _ _ => rfl
    simp only [docRef, hne, hasDoubleSlash_of_no_slash _ hslash, splitSlash_of_no_slash _ hslash,
      List.filter, hempty, Bool.not_false, List.map, List.length_singleton, appendSegments,
      false_or, Bool.false_eq_true, if_false, Nat.one_mod, if_true]


theorem orUndefined_of_plainId (key : Option Json) (h : isPlainId key = true) :
    orUndefined key = key := by
  match key, h with
  | some (.str id), h =>
    simp only [isPlainId, Bool.and_eq_true, bne_iff_ne, ne_eq] at h
    have hb : (id != "") = true := by simpa using h.1
    simp [orUndefined, Json.truthy, hb]

theorem questionWrite_eq_spec (ref : Ref) (q : Json) (h : schemaQuestion q) :
    questionWrite ref q = .ok (specQuestionRecord ref q) := by
  obtain ⟨⟨term, hterm⟩, ⟨defs, hdef, htext⟩, hid⟩ := h
  cases term with
  | none => simp [questionWrite, specQuestionRecord, hterm, truthy?]
  | some t =>
    by_cases ht : t = ""
    · cases defs <;> simp [questionWrite, specQuestionRecord, hterm, hdef, truthy?, Json.truthy, ht]
    · cases defs with
      | none =>
        simp [questionWrite, specQuestionRecord, hterm, hdef, truthy?, Json.truthy, ht]
      | some ds =>
        have hkept : definitionEntries (ds.filter keptDefinition)
            = .ok ((ds.filter keptDefinition).map storedEntry) := by
          apply definitionEntries_of_text
          intro d hd
          rw [List.mem_filter] at hd
          exact htext ds rfl d hd.1 hd.2
        have hb : (t != "") = true := by simpa using ht
        by_cases hk : (ds.filter keptDefinition).length = 0
        · simp only [questionWrite, specQuestionRecord, hterm, hdef, truthy?, Json.truthy, ht, hk,
            hkept, hb, bind, Except.bind, pure, Except.pure, Option.map_some', bne_iff_ne, ne_eq,
            not_false_eq_true, decide_True, Bool.not_true, Bool.false_eq_true, if_false,
            List.length_map, if_true, not_true_eq_false, and_false]
        · have hplain : isPlainId (q.optProp "id") = true := by
            apply hid
            simp [specQuestionRecord, hterm, hdef, ht, hk]
          simp only [questionWrite, specQuestionRecord, hterm, hdef, truthy?, Json.truthy, ht, hk,
            hkept, hb, bind, Except.bind, pure, Except.pure, Option.map_some', bne_iff_ne, ne_eq,
            not_false_eq_true, decide_True, Bool.not_true, Bool.false_eq_true, if_false,
            List.length_map, if_true, and_self, Json.trim, orUndefined_of_plainId _ hplain,
            docRef_of_plainId _ _ _ hplain]

theorem questionsWrites_eq_spec (ref : Ref) (qs : List Json) (h : ∀ q ∈ qs, schemaQuestion q) :
    questionsWrites ref qs = .ok (qs.filterMap (specQuestionRecord ref)) := by
  induction qs with
  | nil => rfl
  | cons q rest ih =>
    have hq := questionWrite_eq_spec ref q (h q (List.mem_cons_self _ _))
    have hrest := ih (fun q' hq' => h q' (List.mem_cons_of_mem _ hq'))
    simp only [questionsWrites, hq, hrest, bind, Except.bind, pure, Except.pure,
      List.filterMap_cons]
    cases specQuestionRecord ref q <;> rfl

theorem artifactTitle_obj (members : List (String × Json)) :
    artifactTitle (.obj members) = .ok (titleOrUntitled (members.lookup "title")) := by
  simp only [artifactTitle, Json.prop, bind, Except.bind, titleOrUntitled]
  cases members.lookup "title" <;> rfl

/-- C10, counterexample.  A question with term ` Cell ` and one entry of text
` Unit of life ` is stored with term `Cell` and text `Unit of life`: the stored
entries are not exactly the kept entries.  A question without an id that
qualifies for a record gets no auto-generated key: `.doc` throws on `undefined`,
and only the Artifact Record is stored. -/
theorem question_record_is_trimmed :
    questionWrite [] samplePaddedQuestion
      = .ok (some ⟨[("questions", some (.str "q1"))],
          .question "Cell" [⟨"Unit of life", some (.str "correct")⟩]⟩)
    ∧ samplePaddedQuestion.optProp "term" = some (.str " Cell ")
    ∧ "Cell" ≠ " Cell " ∧ "Unit of life" ≠ " Unit of life "
    ∧ (persist (sampleEnv (sampleOutputs sampleTermsText) none none)
        (reviewerRefOf "u1" "TermsAndDefinitions" "td1") "td1" .terms samplePaddedTerms).writes
      = [⟨reviewerRefOf "u1" "TermsAndDefinitions" "td1", .artifact "td1" (.str "X") 0 0⟩,
         ⟨reviewerRefOf "u1" "TermsAndDefinitions" "td1" ++ [("questions", some (.str "q1"))],
          .question "Cell" [⟨"Unit of life", some (.str "correct")⟩]⟩]
    ∧ (persist (sampleEnv (sampleOutputs sampleTermsText) none none)
        (reviewerRefOf "u1" "TermsAndDefinitions" "td1") "td1" .terms sampleNoIdTerms).writes
      = [⟨reviewerRefOf "u1" "TermsAndDefinitions" "td1", .artifact "td1" (.str "X") 0 0⟩]
    ∧ (persist (sampleEnv (sampleOutputs sampleTermsText) none none)
        (reviewerRefOf "u1" "TermsAndDefinitions" "td1") "td1" .terms sampleNoIdTerms).error
      = some .invalidArgument :=
  ⟨rfl, rfl, by decide, by decide, rfl, rfl, rfl⟩

/-- C10, amended.  Terms persistence mapping: for every parsed terms result (an
object) whose questions have the shape of the schema (term a string or absent,
definition an array or absent, kept entries with string texts) and, where they
qualify for a record, a non-empty string without slashes for their id, and with
the store operations succeeding: a Question Record is written for a question if
and only if its term is non-empty and its definition list, after dropping every
entry missing text or type, is non-empty; the records written are the Artifact
Record and these Question Records in the order of the questions, each holding
the trimmed term and, in their original order, the kept entries as their trimmed
text and their type, keyed by the id of the question. -/
theorem terms_persistence_mapping (env : Env) (ref : Ref) (reviewerId : String)
    (members : List (String × Json)) (questions : List Json)
    (hset : env.reviewerSetError = none) (hcommit : env.commitError = none)
    (hquestions : orEmptyList (members.lookup "questions") = .arr questions)
    (hschema : ∀ q ∈ questions, schemaQuestion q) :
    (persist env ref reviewerId .terms (.obj members)).writes
        = ⟨ref, .artifact reviewerId (titleOrUntitled (members.lookup "title"))
            env.createdAt env.startDate⟩ :: questions.filterMap (specQuestionRecord ref)
      ∧ (persist env ref reviewerId .terms (.obj members)).error = none := by
  have hbatch : termsBatch ref (.obj members)
      = .ok (questions.filterMap (specQuestionRecord ref)) := by
    simp only [termsBatch, Json.prop, hquestions, Json.iterate, bind, Except.bind]
    exact questionsWrites_eq_spec ref questions hschema
  simp only [persist, persistBatched, artifactTitle_obj, hset, hbatch, hcommit, and_self]

/-- The end-to-end example: the question `q1` is stored with term
`Photosynthesis` and four definition entries, one of type `correct`. -/
theorem terms_persistence_mapping_witness :
    (persist (sampleEnv (sampleOutputs sampleTermsText) none none)
        (reviewerRefOf "u1" "TermsAndDefinitions" "td1") "td1" .terms sampleTermsResult).writes
      = [⟨reviewerRefOf "u1" "TermsAndDefinitions" "td1", .artifact "td1" (.str "X") 0 0⟩,
         ⟨reviewerRefOf "u1" "TermsAndDefinitions" "td1" ++ [("questions", some (.str "q1"))],
          .question "Photosynthesis" [
            ⟨"Process by which plants convert light into energy", some (.str "correct")⟩,
            ⟨"Process by which plants absorb water", some (.str "wrong")⟩,
            ⟨"Process by which animals digest food", some (.str "wrong")⟩,
            ⟨"Release of energy from glucose", some (.str "wrong")⟩]⟩]
      ∧ (persist (sampleEnv (sampleOutputs sampleTermsText) none none)
        (reviewerRefOf "u1" "TermsAndDefinitions" "td1") "td1" .terms sampleTermsResult).error
        = none :=
  terms_persistence_mapping (sampleEnv (sampleOutputs sampleTermsText) none none)
    (reviewerRefOf "u1" "TermsAndDefinitions" "td1") "td1"
    [("title", .str "X"), ("questions", .arr [sampleQuestion])] [sampleQuestion]
    rfl rfl rfl
    (by
      intro q hq
      simp only [List.mem_singleton] at hq
      subst hq
      refine ⟨⟨some "Photosynthesis", rfl⟩, ⟨some [
        sampleOption "Process by which plants convert light into energy" "correct",
        sampleOption "Process by which plants absorb water" "wrong",
        sampleOption "Process by which animals digest food" "wrong",
        sampleOption "Release of energy from glucose" "wrong"], rfl, ?_⟩, fun _ => by decide⟩
      intro ds hds d hd _
      simp only [Option.some.injEq] at hds
      subst hds
      simp only [List.mem_cons, List.mem_singleton, List.not_mem_nil, or_false] at hd
      rcases hd with rfl | rfl | rfl | rfl <;> exact ⟨_, rfl⟩)


/-! ## The mapping of acronym results -/

theorem batchSet_ok (ignoreUndefined : Bool) (ref : Ref) (data : Record)
    (h : ignoreUndefined = true ∨ data.fieldsDefined = true) :
    batchSet ignoreUndefined ref data = .ok ⟨ref, data⟩ := by
  have hb : (ignoreUndefined || data.fieldsDefined) = true := by
    rcases h with h | h <;> simp [h]
  simp only [batchSet, hb, if_true]

theorem acronymItemWrites_eq (ignoreUndefined : Bool) (contentRef : Ref) (index : Nat)
    (items : List Json) (h : ∀ item ∈ items, storableItem ignoreUndefined item) :
    acronymItemWrites ignoreUndefined contentRef index items
      = .ok ((items.enumFrom index).map (specLeafRecord contentRef)) := by
  induction items generalizing index with
  | nil => rfl
  | cons item rest ih =>
    obtain ⟨hitem, hfields⟩ := h item (List.mem_cons_self _ _)
    have hrest := ih (index + 1) (fun i hi => h i (List.mem_cons_of_mem _ hi))
    have hprop : ∀ key, item.prop key = .ok (item.optProp key) := by
      intro key
      cases item <;> first | exact absurd rfl hitem | rfl
    have hset := batchSet_ok ignoreUndefined
      (contentRef ++ [("contents", some (.str (toString index)))])
      (.item (item.optProp "letter") (item.optProp "word"))
      (by
        rcases hfields with hf | ⟨hl, hw⟩
        · exact Or.inl hf
        · exact Or.inr (by simp [Record.fieldsDefined, hl, hw]))
    simp only [acronymItemWrites, hprop, hset, hrest, bind, Except.bind, pure, Except.pure,
      List.enumFrom_cons, List.map_cons, specLeafRecord]

theorem acronymGroupWrites_eq (ignoreUndefined : Bool) (ref : Ref) (group : Json)
    (h : storableGroup ignoreUndefined group) :
    acronymGroupWrites ignoreUndefined ref group = .ok (specGroupRecords ref group) := by
  obtain ⟨members, items, hg, hid, hfields, hc, hitems⟩ := h
  subst hg
  have hplain : isPlainId (members.lookup "id") = true := hid
  have hidSome : (members.lookup "id").isSome = true := by
    cases hl : members.lookup "id" with
    | none => rw [hl] at hid; simp [isPlainId] at hid
    | some _ => rfl
  have hset := batchSet_ok ignoreUndefined (ref ++ [("content", members.lookup "id")])
    (.content (members.lookup "id") (members.lookup "keyPhrase") (members.lookup "title"))
    (by
      rcases hfields with hf | ⟨hk, ht⟩
      · exact Or.inl hf
      · exact Or.inr (by simp [Record.fieldsDefined, hidSome, hk, ht]))
  simp only [acronymGroupWrites, Json.prop, hc, docRef_of_plainId _ _ _ hplain, hset,
    acronymItemWrites_eq ignoreUndefined _ 0 items hitems, bind, Except.bind, pure, Except.pure,
    specGroupRecords, Json.optProp, List.enum]

theorem acronymGroupsWrites_eq (ignoreUndefined : Bool) (ref : Ref) (groups : List Json)
    (h : ∀ g ∈ groups, storableGroup ignoreUndefined g) :
    acronymGroupsWrites ignoreUndefined ref groups
      = .ok (groups.flatMap (specGroupRecords ref)) := by
  induction groups with
  | nil => rfl
  | cons g rest ih =>
    have hg := acronymGroupWrites_eq ignoreUndefined ref g (h g (List.mem_cons_self _ _))
    have hrest := ih (fun g' hg' => h g' (List.mem_cons_of_mem _ hg'))
    simp only [acronymGroupsWrites, hg, hrest, bind, Except.bind, pure, Except.pure,
      List.flatMap_cons]

/-- C11, counterexample.  An acronym result whose group has a contents list and
no id: `.doc(group.id)` throws, only the Artifact Record is stored and no
Content or leaf record is written.  The same happens, with the default store
settings, for a group with an id and neither key phrase nor title. -/
theorem group_without_id_is_not_stored :
    (sampleNoIdAcronym.optProp "acronymGroups").isSome = true
    ∧ (persist (sampleEnv (sampleOutputs sampleAcronymText) none none)
        (reviewerRefOf "u1" "AcronymMnemonics" "ac1") "ac1" .acronym sampleNoIdAcronym).writes
      = [⟨reviewerRefOf "u1" "AcronymMnemonics" "ac1", .artifact "ac1" (.str "Plants") 0 0⟩]
    ∧ (persist (sampleEnv (sampleOutputs sampleAcronymText) none none)
        (reviewerRefOf "u1" "AcronymMnemonics" "ac1") "ac1" .acronym sampleNoIdAcronym).error
      = some .invalidArgument
    ∧ (persist (sampleEnv (sampleOutputs sampleAcronymText) none none)
        (reviewerRefOf "u1" "AcronymMnemonics" "ac1") "ac1" .acronym sampleNoTitleAcronym).writes
      = [⟨reviewerRefOf "u1" "AcronymMnemonics" "ac1", .artifact "ac1" (.str "Plants") 0 0⟩]
    ∧ (persist (sampleEnv (sampleOutputs sampleAcronymText) none none)
        (reviewerRefOf "u1" "AcronymMnemonics" "ac1") "ac1" .acronym sampleNoTitleAcronym).error
      = some .invalidArgument :=
  ⟨rfl, rfl, rfl, rfl, rfl⟩

/-- C11, amended.  Acronym persistence mapping: for every parsed acronym result
(an object) in which each group is an object with a non-empty string without
slashes for its id, a key phrase and a title, and a contents list of items that
are not `null` and have a letter and a word (key phrase, title, letter and word
may be missing when the store ignores `undefined` fields), and with the store
operations succeeding, the writes are the Artifact Record with the id, title and
the two dates, then for each group its Content Record with id, key phrase and
title keyed by the id of the group, and for the item at position `i` of the
group the leaf record with letter and word keyed by the decimal string of `i`
under that Content Record; no other record is written. -/
theorem acronym_persistence_mapping (env : Env) (ref : Ref) (reviewerId : String)
    (members : List (String × Json)) (groups : List Json)
    (hset : env.reviewerSetError = none) (hcommit : env.commitError = none)
    (hgroups : orEmptyList (members.lookup "acronymGroups") = .arr groups)
    (hstorable : ∀ g ∈ groups, storableGroup env.ignoreUndefinedProperties g) :
    (persist env ref reviewerId .acronym (.obj members)).writes
        = ⟨ref, .artifact reviewerId (titleOrUntitled (members.lookup "title"))
            env.createdAt env.startDate⟩ :: groups.flatMap (specGroupRecords ref)
      ∧ (persist env ref reviewerId .acronym (.obj members)).error = none := by
  have hbatch : acronymBatch env.ignoreUndefinedProperties ref (.obj members)
      = .ok (groups.flatMap (specGroupRecords ref)) := by
    simp only [acronymBatch, Json.prop, hgroups, Json.iterate, bind, Except.bind]
    exact acronymGroupsWrites_eq _ ref groups hstorable
  simp only [persist, persistBatched, artifactTitle_obj, hset, hbatch, hcommit, and_self]

/-- The mapping on the sample result with one group of two items: four records. -/
theorem acronym_persistence_mapping_witness :
    (persist (sampleEnv (sampleOutputs sampleAcronymText) none none)
        (reviewerRefOf "u1" "AcronymMnemonics" "ac1") "ac1" .acronym sampleAcronymResult).writes
      = [⟨reviewerRefOf "u1" "AcronymMnemonics" "ac1", .artifact "ac1" (.str "Plants") 0 0⟩,
         ⟨reviewerRefOf "u1" "AcronymMnemonics" "ac1" ++ [("content", some (.str "q1"))],
           .content (some (.str "q1")) (some (.str "Pink Cats")) (some (.str "Leaf parts"))⟩,
         ⟨reviewerRefOf "u1" "AcronymMnemonics" "ac1" ++ [("content", some (.str "q1")),
           ("contents", some (.str "0"))],
           .item (some (.str "P")) (some (.str "Photosynthesis"))⟩,
         ⟨reviewerRefOf "u1" "AcronymMnemonics" "ac1" ++ [("content", some (.str "q1")),
           ("contents", some (.str "1"))],
           .item (some (.str "C")) (some (.str "Chlorophyll"))⟩]
      ∧ (persist (sampleEnv (sampleOutputs sampleAcronymText) none none)
        (reviewerRefOf "u1" "AcronymMnemonics" "ac1") "ac1" .acronym sampleAcronymResult).error
        = none :=
  acronym_persistence_mapping (sampleEnv (sampleOutputs sampleAcronymText) none none)
    (reviewerRefOf "u1" "AcronymMnemonics" "ac1") "ac1"
    [("title", .str "Plants"), ("acronymGroups", .arr [
      .obj [("id", .str "q1"), ("keyPhrase", .str "Pink Cats"), ("title", .str "Leaf parts"),
        ("contents", .arr [
          .obj [("letter", .str "P"), ("word", .str "Photosynthesis")],
          .obj [("letter", .str "C"), ("word", .str "Chlorophyll")]])]])]
    [.obj [("id", .str "q1"), ("keyPhrase", .str "Pink Cats"), ("title", .str "Leaf parts"),
        ("contents", .arr [
          .obj [("letter", .str "P"), ("word", .str "Photosynthesis")],
          .obj [("letter", .str "C"), ("word", .str "Chlorophyll")]])]]
    rfl rfl rfl
    (by
      intro g hg
      simp only [List.mem_singleton] at hg
      subst hg
      refine ⟨_, _, rfl, by decide, Or.inr ⟨rfl, rfl⟩, rfl, ?_⟩
      intro item hitem
      simp only [List.mem_cons, List.mem_singleton, List.not_mem_nil, or_false] at hitem
      rcases hitem with rfl | rfl
      · exact ⟨by simp, Or.inr ⟨rfl, rfl⟩⟩
      · exact ⟨by simp, Or.inr ⟨rfl, rfl⟩⟩)

/-! ## The response and the order of the steps -/

/-- C12, the failing input.  A summarize request whose parsed result carries an
`id` member of its own: the allocator returns `std1`, the Artifact Record is
stored under the key and id `std1`, and the artifact of the success response has
the id `sec-1` of the parsed result. -/
theorem response_id_is_overridden :
    (updateCounterAndGetId none Feature.summarize.folderId Feature.summarize.pfx).2 = "std1"
    ∧ (processFeature (sampleEnvMore (sampleOutputs sampleSummaryText) none none) none
        sampleRequest .summarize).response
      = .json 200 (.reviewers [.obj [("id", .str "sec-1"), ("title", .str "Plants"),
          ("sections", .arr [])]])
    ∧ (processFeature (sampleEnvMore (sampleOutputs sampleSummaryText) none none) none
        sampleRequest .summarize).response.artifactIds = [some (.str "sec-1")]
    ∧ (processFeature (sampleEnvMore (sampleOutputs sampleSummaryText) none none) none
        sampleRequest .summarize).writes
      = [⟨reviewerRefOf "u1" "SummarizedReviewers" "std1",
          .embedded "std1" [sampleSummaryResult] 0 0⟩] :=
  ⟨rfl, rfl, rfl, rfl⟩

theorem lookup_assignMember (acc : List (String × Json)) (kv : String × Json) (k : String) :
    (assignMember acc kv).lookup k = if k = kv.1 then some kv.2 else acc.lookup k := by
  induction acc with
  | nil =>
    by_cases h : k = kv.1
    · simp [assignMember, List.lookup, h]
    · have hne : (k == kv.1) = false := by simpa using h
      simp [assignMember, List.lookup, h, hne]
  | cons p rest ih =>
    obtain ⟨k', v'⟩ := p
    by_cases h' : k' = kv.1
    · by_cases h : k = kv.1
      · simp [assignMember, List.lookup, h', h]
      · have hne : (k == kv.1) = false := by simpa using h
        simp [assignMember, List.lookup, h', h, hne]
    · by_cases hk : k = k'
      · subst hk
        have hne : ¬ k = kv.1 := h'
        simp [assignMember, List.lookup, h', hne]
      · have hne : (k == k') = false := by simpa using hk
        simp only [assignMember, h', if_false, List.lookup, hne, ih]

theorem lookup_foldl_assignMember (members acc : List (String × Json)) (k : String)
    (h : ∀ kv ∈ members, kv.1 ≠ k) :
    (members.foldl assignMember acc).lookup k = acc.lookup k := by
  induction members generalizing acc with
  | nil => rfl
  | cons kv rest ih =>
    have hkv : ¬ k = kv.1 := fun hk => h kv (List.mem_cons_self _ _) hk.symm
    rw [List.foldl_cons, ih _ (fun kv' hkv' => h kv' (List.mem_cons_of_mem _ hkv')),
      lookup_assignMember, if_neg hkv]

/-- When the parsed result spreads no `id` property, the artifact of the success
response carries the allocated identifier. -/
theorem artifactObject_id (reviewerId : String) (parsed : Json)
    (h : ∀ kv ∈ parsed.spreadMembers, kv.1 ≠ "id") :
    (artifactObject reviewerId parsed).optProp "id" = some (.str reviewerId) := by
  simp only [artifactObject, Json.optProp, lookup_foldl_assignMember _ _ "id" h]
  rfl

/-- C13, counterexample.  The request with the text `a b c` for `acronym` is
refused by the gate, and the acronym counter of the user goes from 0 to 1. -/
theorem rejected_request_allocates :
    contentGate sampleShortRequest.markdown = some .tooFewWords
    ∧ (processFeature (sampleEnv (sampleOutputs sampleAcronymText) none none) none
        sampleShortRequest .acronym).counters
      = some [("acronymCounter", 1), ("termCounter", 0), ("summarizationCounter", 0),
          ("aiCounter", 0)]
    ∧ counterValue none "acronymCounter" = 0
    ∧ counterValue (processFeature (sampleEnv (sampleOutputs sampleAcronymText) none none) none
        sampleShortRequest .acronym).counters "acronymCounter" = 1 :=
  ⟨rfl, rfl, rfl, rfl⟩

/-- C13, amended.  For every request whose text the gate refuses, the answer has
status 400, no completion call is made and no record is written; the identifier
is allocated before the gate runs, so the counter document is the one the
allocator leaves: the counter of the category of the request is incremented by 1
when it is below 2^53, and the other counters are unchanged. -/
theorem rejected_request_effects (env : Env) (counters : Option CounterDoc) (req : Request)
    (f : Feature) (rejection : GateRejection) (hgate : contentGate req.markdown = some rejection) :
    (processFeature env counters req f).response.status = 400
      ∧ (processFeature env counters req f).gptCalls = []
      ∧ (processFeature env counters req f).writes = []
      ∧ (processFeature env counters req f).counters
          = (updateCounterAndGetId counters f.folderId f.pfx).1
      ∧ (counterValue counters f.counterField < 2 ^ 53 →
          counterValue (processFeature env counters req f).counters f.counterField
            = counterValue counters f.counterField + 1)
      ∧ ∀ g : Feature, g ≠ f →
          counterValue (processFeature env counters req f).counters g.counterField
            = counterValue counters g.counterField := by
  have hout : processFeature env counters req f
      = ⟨rejection.response, (updateCounterAndGetId counters f.folderId f.pfx).1, [], []⟩ := by
    simp only [processFeature, hgate]
  rw [hout]
  refine ⟨by cases rejection <;> rfl, rfl, rfl, rfl, ?_, ?_⟩
  · intro hsafe
    have h1 := readCurrent_ensureCounters counters f
    unfold Feature.counterField at h1
    simp only [counterValue, Feature.counterField] at hsafe
    have hr := roundToDouble_of_le
      (readCurrent counters (propertyKey (counterFieldOf f.folderId)) + 1) (by omega)
    simp only [updateCounterAndGetId, counterValue, Feature.counterField, h1, hr]
    cases counters <;> simp [ensureCounters, updateCounter, readCurrent, lookup_setField_self]
  · intro g hg
    have hne := counterField_injective f g (fun h => hg h.symm)
    have h1 := readCurrent_ensureCounters counters g
    unfold Feature.counterField at h1 hne
    simp only [updateCounterAndGetId, counterValue, Feature.counterField]
    rw [← h1]
    cases hd : ensureCounters counters with
    | none => cases counters <;> simp [ensureCounters] at hd
    | some d => simp [updateCounter, readCurrent, lookup_setField_other _ _ _ _ hne]

/-- The rejection example: the text `a b c` for `acronym`, new user. -/
theorem rejected_request_effects_witness :
    (processFeature (sampleEnv (sampleOutputs sampleAcronymText) none none) none
        sampleShortRequest .acronym).response.status = 400
      ∧ (processFeature (sampleEnv (sampleOutputs sampleAcronymText) none none) none
        sampleShortRequest .acronym).gptCalls = []
      ∧ (processFeature (sampleEnv (sampleOutputs sampleAcronymText) none none) none
        sampleShortRequest .acronym).writes = []
      ∧ (processFeature (sampleEnv (sampleOutputs sampleAcronymText) none none) none
        sampleShortRequest .acronym).counters
          = (updateCounterAndGetId none Feature.acronym.folderId Feature.acronym.pfx).1
      ∧ counterValue (processFeature (sampleEnv (sampleOutputs sampleAcronymText) none none) none
        sampleShortRequest .acronym).counters Feature.acronym.counterField
          = counterValue none Feature.acronym.counterField + 1
      ∧ ∀ g : Feature, g ≠ .acronym →
          counterValue (processFeature (sampleEnv (sampleOutputs sampleAcronymText) none none)
            none sampleShortRequest .acronym).counters g.counterField
            = counterValue none g.counterField :=
  have h := rejected_request_effects (sampleEnv (sampleOutputs sampleAcronymText) none none) none
    sampleShortRequest .acronym .tooFewWords rfl
  ⟨h.1, h.2.1, h.2.2.1, h.2.2.2.1, h.2.2.2.2.1 (by decide), h.2.2.2.2.2⟩

/-- C14, counterexample.  For the `terms` request of the end-to-end example, a
failing commit and a failing write of the Artifact Record are both answered with
status 400 and the message of the failure, not with status 500. -/
theorem commit_failure_is_answered_400 :
    (persist (sampleEnv (sampleOutputs sampleTermsText) none (some (.failure "commit failed")))
        (reviewerRefOf "u1" "TermsAndDefinitions" "td1") "td1" .terms sampleTermsResult).error
      = some (.failure "commit failed")
    ∧ (processFeature (sampleEnv (sampleOutputs sampleTermsText) none
        (some (.failure "commit failed"))) none sampleRequest .terms).response
      = .json 400 (.thrown (.failure "commit failed") "Failed to process terms")
    ∧ (processFeature (sampleEnv (sampleOutputs sampleTermsText)
        (some (.failure "set failed")) none) none sampleRequest .terms).response
      = .json 400 (.thrown (.failure "set failed") "Failed to process terms") :=
  ⟨rfl, rfl, rfl⟩

/-- An exception that reaches the outer `catch`, from a completion call or from
persistence, is answered with status 400 and the message of the exception. -/
theorem exception_is_answered_400 (env : Env) (counters : Option CounterDoc) (req : Request)
    (f : Feature) (e : JsError)
    (hgate : contentGate req.markdown = none)
    (hmode : env.returnMarkdownOnly = false)
    (hthrown : (runStages env f (prepareMarkdown env f req.markdown)).2 = .thrown e
      ∨ ∃ parsed, (runStages env f (prepareMarkdown env f req.markdown)).2 = .parsed parsed
        ∧ (persist env
            (reviewerRefOf req.uid f.folderId (updateCounterAndGetId counters f.folderId f.pfx).2)
            (updateCounterAndGetId counters f.folderId f.pfx).2 f parsed).error = some e) :
    (processFeature env counters req f).response
        = .json 400 (.thrown e ("Failed to process " ++ f.name))
      ∧ (processFeature env counters req f).response.status = 400 := by
  rcases hthrown with h | ⟨parsed, h, herr⟩
  · simp only [processFeature, hgate, hmode, h]
    exact ⟨rfl, rfl⟩
  · simp only [processFeature, hgate, hmode, h, herr]
    exact ⟨rfl, rfl⟩

theorem artifactTitle_of_ne_null (parsed : Json) (h : parsed ≠ .null) :
    ∃ title, artifactTitle parsed = .ok title := by
  cases parsed with
  | null => exact absurd rfl h
  | obj members => exact ⟨_, artifactTitle_obj members⟩
  | bool _ => exact ⟨_, rfl⟩
  | num _ => exact ⟨_, rfl⟩
  | str _ => exact ⟨_, rfl⟩
  | arr _ => exact ⟨_, rfl⟩

theorem persist_error_of_store_failure (env : Env) (ref : Ref) (reviewerId : String)
    (f : Feature) (parsed : Json) (e : JsError)
    (hfail : (env.reviewerSetError = some e ∧ ((f = .acronym ∨ f = .terms) → parsed ≠ .null))
      ∨ (env.reviewerSetError = none ∧ env.commitError = some e
        ∧ ((f = .acronym
            ∧ ∃ batch, acronymBatch env.ignoreUndefinedProperties ref parsed = .ok batch)
          ∨ (f = .terms ∧ ∃ batch, termsBatch ref parsed = .ok batch)))) :
    (persist env ref reviewerId f parsed).error = some e := by
  rcases hfail with ⟨hset, hnull⟩ | ⟨hset, hcommit, ⟨hf, batch, hb⟩ | ⟨hf, batch, hb⟩⟩
  · cases f with
    | acronym =>
      obtain ⟨title, ht⟩ := artifactTitle_of_ne_null parsed (hnull (Or.inl rfl))
      simp only [persist, persistBatched, ht, hset]
    | terms =>
      obtain ⟨title, ht⟩ := artifactTitle_of_ne_null parsed (hnull (Or.inr rfl))
      simp only [persist, persistBatched, ht, hset]
    | summarize => simp only [persist, hset]
    | explain => simp only [persist, hset]
  · subst hf
    have hne : parsed ≠ .null := by
      intro hn
      subst hn
      simp [acronymBatch, Json.prop, bind, Except.bind] at hb
    obtain ⟨title, ht⟩ := artifactTitle_of_ne_null parsed hne
    simp only [persist, persistBatched, ht, hset, hb, hcommit]
  · subst hf
    have hne : parsed ≠ .null := by
      intro hn
      subst hn
      simp [termsBatch, Json.prop, bind, Except.bind] at hb
    obtain ⟨title, ht⟩ := artifactTitle_of_ne_null parsed hne
    simp only [persist, persistBatched, ht, hset, hb, hcommit]

/-- C14, amended.  Persistence failure status: for every feature and every final
result, if writing the Artifact Record fails, or the batch of `acronym` or
`terms` is filled and committing it fails, the request is answered with status
400 and the message of the failure; so is every other exception that reaches the
outer `catch`, thrown by a completion call or while the result is persisted. -/
theorem store_failure_is_answered_400 (env : Env) (counters : Option CounterDoc)
    (req : Request) (f : Feature) (e : JsError)
    (hgate : contentGate req.markdown = none)
    (hmode : env.returnMarkdownOnly = false)
    (hcaught :
      (∃ parsed, (runStages env f (prepareMarkdown env f req.markdown)).2 = .parsed parsed
        ∧ ((env.reviewerSetError = some e ∧ ((f = .acronym ∨ f = .terms) → parsed ≠ .null))
          ∨ (env.reviewerSetError = none ∧ env.commitError = some e
            ∧ ((f = .acronym ∧ ∃ batch, acronymBatch env.ignoreUndefinedProperties
                  (reviewerRefOf req.uid f.folderId
                    (updateCounterAndGetId counters f.folderId f.pfx).2) parsed = .ok batch)
              ∨ (f = .terms ∧ ∃ batch, termsBatch (reviewerRefOf req.uid f.folderId
                  (updateCounterAndGetId counters f.folderId f.pfx).2) parsed = .ok batch)))))
      ∨ (runStages env f (prepareMarkdown env f req.markdown)).2 = .thrown e
      ∨ ∃ parsed, (runStages env f (prepareMarkdown env f req.markdown)).2 = .parsed parsed
        ∧ (persist env
            (reviewerRefOf req.uid f.folderId (updateCounterAndGetId counters f.folderId f.pfx).2)
            (updateCounterAndGetId counters f.folderId f.pfx).2 f parsed).error = some e) :
    (processFeature env counters req f).response
        = .json 400 (.thrown e ("Failed to process " ++ f.name))
      ∧ (processFeature env counters req f).response.status = 400 := by
  rcases hcaught with ⟨parsed, hstages, hfail⟩ | hthrown | ⟨parsed, hstages, herr⟩
  · exact exception_is_answered_400 env counters req f e hgate hmode
      (Or.inr ⟨parsed, hstages, persist_error_of_store_failure env _ _ f parsed e hfail⟩)
  · exact exception_is_answered_400 env counters req f e hgate hmode (Or.inl hthrown)
  · exact exception_is_answered_400 env counters req f e hgate hmode
      (Or.inr ⟨parsed, hstages, herr⟩)

/-- The `terms` request of the end-to-end example with a failing commit. -/
theorem store_failure_is_answered_400_witness :
    (processFeature (sampleEnv (sampleOutputs sampleTermsText) none
        (some (.failure "commit failed"))) none sampleRequest .terms).response
        = .json 400 (.thrown (.failure "commit failed") ("Failed to process " ++ "terms"))
      ∧ (processFeature (sampleEnv (sampleOutputs sampleTermsText) none
        (some (.failure "commit failed"))) none sampleRequest .terms).response.status = 400 :=
  store_failure_is_answered_400
    (sampleEnv (sampleOutputs sampleTermsText) none (some (.failure "commit failed"))) none
    sampleRequest .terms (.failure "commit failed") (by decide) rfl
    (Or.inl ⟨sampleTermsResult, rfl, Or.inr ⟨rfl, rfl, Or.inr ⟨rfl, _, rfl⟩⟩⟩)

/-- C15, the failing input.  A question whose term and definition text consist
of spaces passes the checks made before trimming, and its Question Record is
stored with the empty term and an entry with the empty text; the request is
answered with status 200. -/
theorem blank_term_is_stored_empty :
    questionWrite [] sampleBlankQuestion
      = .ok (some ⟨[("questions", some (.str "q1"))],
          .question "" [⟨"", some (.str "correct")⟩]⟩)
    ∧ (processFeature (sampleEnvMore (sampleOutputs sampleBlankText) none none) none
        sampleRequest .terms).writes
      = [⟨reviewerRefOf "u1" "TermsAndDefinitions" "td1", .artifact "td1" (.str "X") 0 0⟩,
         ⟨reviewerRefOf "u1" "TermsAndDefinitions" "td1" ++ [("questions", some (.str "q1"))],
          .question "" [⟨"", some (.str "correct")⟩]⟩]
    ∧ (processFeature (sampleEnvMore (sampleOutputs sampleBlankText) none none) none
        sampleRequest .terms).response.status = 200 :=
  ⟨rfl, rfl, rfl⟩


end Revio
